import Mathlib

/-!
A shallow embedding of `main.go` of psshexec.

`main.go` runs one command on a list of SSH targets.  Every target gets a goroutine
running `execute`; a further goroutine drains the shared `errs` channel; `main`
waits on the `sync.WaitGroup`, cancels the drain goroutine and exits with `errored`.

The development has three layers.

* Strings.  `strings.Split` of the Go standard library, over lists of characters.
* The worker.  `execute`, as a function from the outcome of the session provider
  (`sshConfig.Stream`) to the list of effects the goroutine performs, in order.
* The process.  A step relation over the goroutines of `main`, one step for every
  statement that touches shared state (channel, wait group, context, `errored`,
  the two output streams).
-/

namespace Psshexec

/-! ## Strings -/

/-- Go `strings.Index(s, sep)` on character lists: the least offset at which `sep`
starts in `s`, `none` standing for `-1`. -/
def Index (sep : List Char) : List Char → Option Nat
  | [] => if sep.isPrefixOf [] then some 0 else none
  | c :: cs =>
    if sep.isPrefixOf (c :: cs) then some 0 else (Index sep cs).map (· + 1)

/-- The loop of Go `strings.genSplit` (with `sepSave = 0`): at most `n` times, cut `s`
at the first occurrence of `sep`; what is left is the last piece. -/
def genSplit (sep : List Char) : Nat → List Char → List (List Char)
  | 0, s => [s]
  | n + 1, s =>
    match Index sep s with
    | none => [s]
    | some m => s.take m :: genSplit sep n (s.drop (m + sep.length))

/-- Go `strings.Split(s, sep)`.  For the empty separator Go explodes `s` into its
characters.  Otherwise Go runs the `genSplit` loop `strings.Count(s, sep)` times; the
loop also stops at the first failed `Index`, and `s` has no more than `len(s)`
occurrences of a non-empty `sep`, so the bound used here is `len(s)`. -/
def Split (s sep : String) : List String :=
  if sep.data = [] then s.data.map (fun c => String.mk [c])
  else (genSplit sep.data s.data.length s.data).map String.mk

/-! ## Connection descriptors -/

/-- The fields of `easyssh.DefaultConfig` that `execute` assigns. -/
structure DefaultConfig where
  User : String
  Server : String
  KeyPath : String
  Port : String
  deriving DecidableEq, Repr

/-- The zero value of `easyssh.DefaultConfig`. -/
def DefaultConfig.zero : DefaultConfig := ⟨"", "", "", ""⟩

/-- The fields of `easyssh.MakeConfig` that `execute` assigns; `Timeout` is a
`time.Duration`, a signed number of nanoseconds. -/
structure MakeConfig where
  User : String
  Server : String
  KeyPath : String
  Port : String
  Timeout : Int
  Proxy : DefaultConfig
  deriving DecidableEq, Repr

/-- The package-level variables of `main.go` that are set from the command line
before any worker starts. `port` is the `--port` flag. -/
structure Globals where
  username : String
  port : Nat
  deriving DecidableEq, Repr

/-- Lines 76-97 of `execute`: the `Proxy` value built from a non-empty gateway
address.  An index expression `vals[i]` is `vals[i]?`, so a Go index-out-of-range
panic is `none`. -/
def gatewayConfig (g : Globals) (gwAddr key : String) : Option DefaultConfig := do
  let vals := Split gwAddr ":"
  let gwPort ← if vals.length > 1 then vals[1]? else some "22"
  let vals ← (vals[0]?).map (fun v => Split v "@s")
  let (gwUser, gwHost) ←
    if vals.length = 1 then
      (vals[0]?).map (fun h => (g.username, h))
    else do
      let gwHost ← vals[1]?
      let gwUser ← vals[0]?
      pure (gwUser, gwHost)
  pure { User := gwUser, Server := gwHost, KeyPath := key, Port := gwPort }

/-- Lines 52-98 of `execute`: the `sshConfig` a worker builds for its target.
`none` is a Go index-out-of-range panic. -/
def sshConfig (g : Globals) (addr gwAddr key : String) (timeout : Int) :
    Option MakeConfig := do
  let vals := Split addr ":"
  let host ← vals[0]?
  let port ← if vals.length > 1 then vals[1]? else some "22"
  let proxy ← if gwAddr ≠ "" then gatewayConfig g gwAddr key else some DefaultConfig.zero
  pure { User := g.username, Server := host, KeyPath := key, Port := port,
         Timeout := timeout, Proxy := proxy }

/-! ## The worker -/

/-- One value received by the `select` of `execute` (lines 109-121).  An `error` is
kept as the text `err.Error()` returns, and the `nil` error is `none`. -/
inductive StreamEvent where
  /-- A value of `doneChan`: `isTimeout = <-doneChan`. -/
  | done (v : Bool)
  /-- A value of `stdoutChan`: `outline := <-stdoutChan`. -/
  | stdout (outline : String)
  /-- A value of `stderrChan`: `errline := <-stderrChan`. -/
  | stderr (errline : String)
  /-- A value of `errChan`: `err = <-errChan`. -/
  | err (e : Option String)
  deriving DecidableEq, Repr

/-- What `sshConfig.Stream(cmd, streamTimeout)` hands to the worker: the values its
four channels deliver, in the order the worker's `select` receives them, and the
returned `err`. -/
structure StreamResult where
  events : List StreamEvent
  err : Option String
  deriving DecidableEq, Repr

/-- The session provider, `(*easyssh.MakeConfig).Stream`: an external function of the
descriptor, the command and the stream timeout. -/
abbrev Provider := MakeConfig → String → Int → StreamResult

/-- An effect of a worker on the state it shares with the rest of the process. -/
inductive Effect where
  /-- A write to `os.Stdout` (`fmt.Printf`). -/
  | stdout (text : String)
  /-- A write to `os.Stderr` (`fmt.Fprintf(os.Stderr, ...)`). -/
  | stderr (text : String)
  /-- A send on the shared channel: `errs <- report`. -/
  | send (report : String)
  /-- The deferred `wg.Done()`. -/
  | wgDone
  deriving DecidableEq, Repr

/-- The local variables of the streaming loop of `execute`, with the effects performed
and the number of values received so far; `exited` is set by `break loop`. -/
structure LoopState where
  err : Option String
  isTimeout : Bool
  effects : List Effect
  consumed : Nat
  exited : Bool
  deriving DecidableEq, Repr

/-- Lines 107-122 of `execute`: the `for { select { ... } }` loop over the values
received.  When the values run out before `doneChan` delivers, the `select` blocks
for ever: the state is returned with `exited = false`. -/
def loop (addr : String) : List StreamEvent → LoopState → LoopState
  | [], st => st
  | .done v :: _, st =>
    { st with isTimeout := v, consumed := st.consumed + 1, exited := true }
  | .stdout outline :: evs, st =>
    loop addr evs
      { st with
        effects :=
          if outline ≠ "" then st.effects ++ [.stdout ("[" ++ addr ++ "] " ++ outline ++ "\n")]
          else st.effects
        consumed := st.consumed + 1 }
  | .stderr errline :: evs, st =>
    loop addr evs
      { st with
        effects :=
          if errline ≠ "" then st.effects ++ [.stderr ("[" ++ addr ++ "] " ++ errline ++ "\n")]
          else st.effects
        consumed := st.consumed + 1 }
  | .err e :: evs, st =>
    loop addr evs { st with err := e, consumed := st.consumed + 1 }

/-- What one call of `execute` does: its effects in program order, the number of
values it received from the provider's channels, and whether it returned. -/
structure Run where
  effects : List Effect
  consumed : Nat
  returned : Bool
  deriving DecidableEq, Repr

/-- Lines 124-132 of `execute`: the reports sent after the loop. -/
def terminalReports (addr : String) (err : Option String) (isTimeout : Bool) :
    List Effect :=
  (match err with
    | some e => [Effect.send ("[" ++ addr ++ "] error: " ++ e)]
    | none => []) ++
  (if !isTimeout then [Effect.send ("[" ++ addr ++ "] timeout while read from stream")]
    else [])

/-- The function `execute` of `main.go`.  `none` is a Go panic (an index out of range
while the descriptor is built).  The descriptor is computed first: it is pure, so
the banner of line 54 may be placed after it. -/
def execute (g : Globals) (Stream : Provider) (addr gwAddr key cmd : String)
    (timeout streamTimeout : Int) : Option Run := do
  let cfg ← sshConfig g addr gwAddr key timeout
  let banner := Effect.stderr ("# execute on " ++ addr ++ "\n")
  let r := Stream cfg cmd streamTimeout
  match r.err with
  | some e =>
    pure { effects := [banner, .send ("[" ++ addr ++ "] error: " ++ e), .wgDone]
           consumed := 0
           returned := true }
  | none =>
    let st := loop addr r.events
      { err := r.err, isTimeout := true, effects := [], consumed := 0, exited := false }
    if st.exited then
      pure { effects := banner :: st.effects ++ terminalReports addr st.err st.isTimeout
                          ++ [.wgDone]
             consumed := st.consumed
             returned := true }
    else
      pure { effects := banner :: st.effects, consumed := st.consumed, returned := false }

/-- The texts a list of effects writes to `os.Stdout`, in order. -/
def stdoutWrites (effs : List Effect) : List String :=
  effs.filterMap fun | .stdout t => some t | _ => none

/-- The texts a list of effects writes to `os.Stderr`, in order. -/
def stderrWrites (effs : List Effect) : List String :=
  effs.filterMap fun | .stderr t => some t | _ => none

/-- The reports a list of effects sends on `errs`, in order. -/
def reports (effs : List Effect) : List String :=
  effs.filterMap fun | .send r => some r | _ => none

/-- The number of `wg.Done()` calls in a list of effects. -/
def wgDones (effs : List Effect) : Nat :=
  effs.count .wgDone

/-! ## The process -/

/-- The run configuration `main` hands to every worker.  `Streams i` is the session
provider as it answers the call made by the worker of the `i`-th target. -/
structure Config where
  g : Globals
  Streams : Nat → Provider
  gwAddr : String
  key : String
  cmd : String
  timeout : Int
  readTimeout : Int

/-- Where the goroutine of lines 203-213 stands. -/
inductive DrainPc where
  /-- Before `go func()` of line 203. -/
  | notStarted
  /-- In the `select` of line 205. -/
  | select
  /-- After `err := <-errs` of line 208, before `errored = 1`. -/
  | received (err : String)
  /-- After `errored = 1` of line 209, before `fmt.Println(err)`. -/
  | printing (err : String)
  /-- After `return` of line 207. -/
  | returned
  deriving DecidableEq, Repr

/-- Where `main` stands, from line 193 on. -/
inductive MainPc where
  /-- In the `for` loop of lines 196-199, or at lines 201-213 once the loop is over. -/
  | spawn
  /-- At `wg.Wait()`, line 215. -/
  | wait
  /-- At `cancel()`, line 216. -/
  | cancel
  /-- At `os.Exit(errored)`, line 218, before the argument `errored` is read. -/
  | exit
  /-- In the call of `os.Exit`, with the value read from `errored`; the process is
  still running. -/
  | exiting (status : Nat)
  /-- After `os.Exit`: the process is over. -/
  | exited
  deriving DecidableEq, Repr

/-- The state of the process from line 193 of `main` on.  `sent` is a history
variable: the reports whose send on `errs` has completed. -/
structure World where
  main : MainPc
  /-- The targets the `for` loop of line 196 has not reached. -/
  addrs : List String
  /-- What every started worker has left to do. -/
  workers : List (List Effect)
  drain : DrainPc
  /-- The counter of the `sync.WaitGroup`. -/
  wg : Nat
  /-- Whether `cancel()` was called: `ctx.Done()` is closed. -/
  cancelled : Bool
  errored : Nat
  stdout : List String
  stderr : List String
  sent : List String
  /-- The exit status, once `os.Exit` has run. -/
  exit : Option Nat
  deriving DecidableEq, Repr

/-- The process at line 193, for the resolved target list `addrs`. -/
def World.init (addrs : List String) : World :=
  { main := .spawn, addrs := addrs, workers := [], drain := .notStarted, wg := 0,
    cancelled := false, errored := 0, stdout := [], stderr := [], sent := [],
    exit := none }

/-- The goroutines of the process. -/
inductive Tid where
  | main
  | drain
  | worker (i : Nat)
  deriving DecidableEq, Repr

/-- One step of `main`; `none` when `main` is blocked or over. -/
def stepMain (cfg : Config) (w : World) : Option World :=
  match w.main with
  | .spawn =>
    match w.addrs with
    | addr :: rest =>
      -- lines 197-198: `wg.Add(1); go execute(addr, ...)`
      (execute cfg.g (cfg.Streams w.workers.length) addr cfg.gwAddr cfg.key cfg.cmd
          cfg.timeout cfg.readTimeout).map fun run =>
        { w with addrs := rest, workers := w.workers ++ [run.effects], wg := w.wg + 1 }
    | [] =>
      -- lines 201-213: `errored := 0`, the context, `go func() { ... }()`
      some { w with main := .wait, errored := 0, cancelled := false, drain := .select }
  | .wait =>
    -- line 215: `wg.Wait()` returns once the counter is zero
    if w.wg = 0 then some { w with main := .cancel } else none
  | .cancel =>
    -- line 216: `cancel()`
    some { w with main := .exit, cancelled := true }
  | .exit =>
    -- line 218: the argument of `os.Exit(errored)` is evaluated
    some { w with main := .exiting w.errored }
  | .exiting status =>
    -- line 218: `os.Exit` ends the process with the value read
    some { w with main := .exited, exit := some status }
  | .exited => none

/-- One step of the goroutine of lines 203-213; `none` when it is blocked or over.
The receive of line 208 is the other half of a worker's send and is taken in
`stepWorker`. -/
def stepDrain (w : World) : Option World :=
  match w.drain with
  | .notStarted => none
  | .select =>
    -- line 206: `case <-ctx.Done(): return`
    if w.cancelled then some { w with drain := .returned } else none
  | .received err =>
    -- line 209: `errored = 1`
    some { w with drain := .printing err, errored := 1 }
  | .printing err =>
    -- line 210: `fmt.Println(err)`
    some { w with drain := .select, stdout := w.stdout ++ [err ++ "\n"] }
  | .returned => none

/-- One step of the `i`-th worker: its next effect; `none` when it is blocked or over.
`errs` is unbuffered, so a send completes only together with the receive of line
208, for which the other goroutine has to be in its `select`. -/
def stepWorker (i : Nat) (w : World) : Option World :=
  match w.workers[i]? with
  | none => none
  | some [] => none
  | some (eff :: rest) =>
    let w2 := { w with workers := w.workers.set i rest }
    match eff with
    | .stdout text => some { w2 with stdout := w.stdout ++ [text] }
    | .stderr text => some { w2 with stderr := w.stderr ++ [text] }
    | .send report =>
      if w.drain = .select then
        some { w2 with drain := .received report, sent := w.sent ++ [report] }
      else none
    | .wgDone =>
      -- `wg.Done()` on a zero counter panics
      if w.wg = 0 then none else some { w2 with wg := w.wg - 1 }

/-- One step of the process by goroutine `t`.  Once `os.Exit` has ended the process
nothing runs; until then, also while `main` is in the call of `os.Exit`, every
goroutine may move. -/
def step (cfg : Config) (t : Tid) (w : World) : Option World :=
  if w.exit.isSome then none
  else
    match t with
    | .main => stepMain cfg w
    | .drain => stepDrain w
    | .worker i => stepWorker i w

/-- The process after the goroutines took steps in the order of the schedule; `none`
when the schedule asks a goroutine that cannot move. -/
def run (cfg : Config) : List Tid → World → Option World
  | [], w => some w
  | t :: ts, w => (step cfg t w).bind (run cfg ts)

/-! ## Run configurations used in the examples -/

/-- A provider that refuses every connection: `Stream` returns an error. -/
def refusing : Provider :=
  fun _ _ _ => ⟨[], some "dial tcp: connection refused"⟩

/-- A provider whose command writes one line and then runs into the read timeout:
`easyssh` sends the line `Run Command Timeout!` on `stderrChan`, `nil` on `errChan`
and `false` on `doneChan`. -/
def timingOut : Provider :=
  fun _ _ _ => ⟨[.stdout "starting", .stderr "Run Command Timeout!", .err none,
    .done false], none⟩

/-- A run in which every connection is refused. -/
def Config.refused : Config :=
  { g := ⟨"root", 22⟩, Streams := fun _ => refusing, gwAddr := "", key := "id_rsa",
    cmd := "uptime", timeout := 1000000000, readTimeout := 600000000000 }

/-- A run in which every command times out. -/
def Config.timedOut : Config :=
  { g := ⟨"root", 22⟩, Streams := fun _ => timingOut, gwAddr := "", key := "id_rsa",
    cmd := "uptime", timeout := 1000000000, readTimeout := 600000000000 }

/-- A provider whose command writes two lines and completes in time. -/
def twoLines : Provider :=
  fun _ _ _ => ⟨[.stdout "one", .stdout "two", .err none, .done true], none⟩

/-- A run in which the connection of the first target is refused and the command of
every other target writes two lines. -/
def Config.mixed : Config :=
  { g := ⟨"root", 22⟩, Streams := fun i => if i = 0 then refusing else twoLines,
    gwAddr := "", key := "id_rsa", cmd := "uptime", timeout := 1000000000,
    readTimeout := 600000000000 }

/-! ## Vocabulary for the statements -/

/-- Whether a received value is the completion signal. -/
def StreamEvent.isDone : StreamEvent → Bool
  | .done _ => true
  | _ => false

/-- The line of a value received from `stdoutChan`. -/
def StreamEvent.outline? : StreamEvent → Option String
  | .stdout l => some l
  | _ => none

/-- The line of a value received from `stderrChan`. -/
def StreamEvent.errline? : StreamEvent → Option String
  | .stderr l => some l
  | _ => none

/-- The error value (possibly `nil`) of a value received from `errChan`. -/
def StreamEvent.errValue? : StreamEvent → Option (Option String)
  | .err e => some e
  | _ => none

/-- The values received before the completion signal. -/
def beforeDone (evs : List StreamEvent) : List StreamEvent :=
  evs.takeWhile fun e => !e.isDone

/-- The error value received last from `errChan` among the given values; `nil` when
there is none. -/
def lastErr (evs : List StreamEvent) : Option String :=
  ((evs.filterMap StreamEvent.errValue?).getLast?).getD none

/-- The local variables at the top of the `else` branch of line 104, where `err` is
`nil`. -/
def LoopState.start : LoopState :=
  { err := none, isTimeout := true, effects := [], consumed := 0, exited := false }

/-- What holds of `errored`, the reports sent, the wait group and the exit status in
every state the process reaches. -/
structure World.Inv (w : World) : Prop where
  errored_le : w.errored = 0 ∨ w.errored = 1
  sent_of_errored : w.errored = 1 → w.sent ≠ []
  spawn : w.main = .spawn → w.sent = [] ∧ w.drain = .notStarted
  sent_of_received : ∀ r, w.drain = .received r → w.sent ≠ []
  errored_of_sent : w.sent ≠ [] → w.errored = 1 ∨ ∃ r, w.drain = .received r
  errored_of_two : 2 ≤ w.sent.length → w.errored = 1
  last_of_received : ∀ r, w.drain = .received r → w.sent.getLast? = some r
  /-- The value `main` read from `errored`, and the exit status. -/
  status_ok : ∀ c, (w.main = .exiting c ∨ w.exit = some c) →
    (c = 0 ∨ c = 1) ∧ (c = 1 → w.sent ≠ []) ∧ (2 ≤ w.sent.length → c = 1)
  /-- Every `wg.Done()` still to come is counted in the wait group. -/
  wg_ge : (w.workers.map wgDones).sum ≤ w.wg
  /-- A worker with a report still to send has its `wg.Done()` still to come. -/
  good : ∀ l ∈ w.workers, reports l = [] ∨ l.getLast? = some .wgDone
  /-- Past `wg.Wait()` the counter is zero. -/
  past_wait : w.main ≠ .spawn → w.main ≠ .wait → w.wg = 0

/-! ## Facts about `Index` and `genSplit` -/

/-- The splitting of a few concrete strings, as Go computes it. -/
theorem Split_examples :
    Split "a:b:c" ":" = ["a", "b", "c"] ∧ Split "" ":" = [""] ∧ Split ":" ":" = ["", ""] ∧
    Split "alice@shost" "@s" = ["alice", "host"] ∧ Split "@@s" "@s" = ["@", ""] ∧
    Split "a@sb@sc" "@s" = ["a", "b", "c"] ∧ Split "abc" "" = ["a", "b", "c"] := by
  decide

/-- The descriptor of a target reached through a gateway. -/
theorem sshConfig_example :
    sshConfig ⟨"root", 22⟩ "10.0.0.1:2200" "alice@shost:2222" "id_rsa" 5 =
      some ⟨"root", "10.0.0.1", "id_rsa", "2200", 5, ⟨"alice", "host", "id_rsa", "2222"⟩⟩ := by
  decide


theorem Index_colon_none (s : List Char) (h : ':' ∉ s) : Index [':'] s = none := by
  induction s with
  | nil => simp [Index, List.isPrefixOf]
  | cons c cs ih =>
    simp only [List.mem_cons, not_or] at h
    have hc : (':' == c) = false := by simpa using h.1
    simp [Index, List.isPrefixOf, hc, ih h.2]

theorem Index_colon_some (s : List Char) (h : ':' ∈ s) :
    Index [':'] s = some (s.takeWhile (· != ':')).length := by
  induction s with
  | nil => simp at h
  | cons c cs ih =>
    by_cases hc : c = ':'
    · subst hc
      simp [Index, List.isPrefixOf, List.takeWhile]
    · have hmem : ':' ∈ cs := by
        rcases List.mem_cons.1 h with h | h
        · exact absurd h.symm hc
        · exact h
      have hc1 : (':' == c) = false := by simpa using fun h => hc h.symm
      have hc2 : (c != ':') = true := by simpa using hc
      simp [Index, List.isPrefixOf, hc1, ih hmem, List.takeWhile, hc2]

theorem take_takeWhile_length (p : Char → Bool) (s : List Char) :
    s.take (s.takeWhile p).length = s.takeWhile p := by
  induction s with
  | nil => simp
  | cons c cs ih =>
    by_cases hc : p c = true
    · simp [List.takeWhile, hc, ih]
    · simp [List.takeWhile, hc]

theorem drop_takeWhile_length (p : Char → Bool) (s : List Char) :
    s.drop (s.takeWhile p).length = s.dropWhile p := by
  induction s with
  | nil => simp
  | cons c cs ih =>
    by_cases hc : p c = true
    · simp [List.takeWhile, List.dropWhile, hc, ih]
    · simp [List.takeWhile, List.dropWhile, hc]

theorem takeWhile_eq_self_of_not_mem (s : List Char) (h : ':' ∉ s) :
    s.takeWhile (· != ':') = s := by
  induction s with
  | nil => rfl
  | cons c cs ih =>
    simp only [List.mem_cons, not_or] at h
    have hc : (c != ':') = true := by simpa using fun e => h.1 e.symm
    simp [List.takeWhile, hc, ih h.2]

/-- The first piece `genSplit` cuts at `:` is the text before the first colon. -/
theorem genSplit_colon_head (n : Nat) (r : List Char) (h : r.length ≤ n) :
    ∃ rest, genSplit [':'] n r = r.takeWhile (· != ':') :: rest
      ∧ (':' ∉ r → rest = [])
      ∧ (':' ∈ r → ∃ k, n = k + 1 ∧
          rest = genSplit [':'] k ((r.dropWhile (· != ':')).drop 1)) := by
  by_cases hmem : ':' ∈ r
  · cases n with
    | zero =>
      have : r = [] := List.length_eq_zero.1 (Nat.le_zero.1 h)
      subst this
      simp at hmem
    | succ k =>
      refine ⟨genSplit [':'] k ((r.dropWhile (· != ':')).drop 1), ?_, ?_, ?_⟩
      · simp only [genSplit, Index_colon_some r hmem, List.length_singleton]
        rw [take_takeWhile_length, ← List.drop_drop, drop_takeWhile_length]
      · intro h'
        exact absurd hmem h'
      · intro _
        exact ⟨k, rfl, rfl⟩
  · refine ⟨[], ?_, ?_, ?_⟩
    · rw [takeWhile_eq_self_of_not_mem r hmem]
      cases n with
      | zero => rfl
      | succ k => simp [genSplit, Index_colon_none r hmem]
    · intro _
      rfl
    · intro h'
      exact absurd h' hmem

theorem length_dropWhile_drop_lt (r : List Char) (h : ':' ∈ r) :
    ((r.dropWhile (· != ':')).drop 1).length < r.length := by
  induction r with
  | nil => simp at h
  | cons c cs ih =>
    by_cases hc : c = ':'
    · subst hc
      simp [List.dropWhile]
    · have hmem : ':' ∈ cs := by
        rcases List.mem_cons.1 h with h | h
        · exact absurd h.symm hc
        · exact h
      have hc2 : (c != ':') = true := by simpa using hc
      have := ih hmem
      simp only [List.dropWhile, hc2, List.length_cons]
      omega

/-- Splitting an address without a colon at `:` gives the address alone. -/
theorem Split_colon_of_not_mem (s : String) (h : ':' ∉ s.data) : Split s ":" = [s] := by
  obtain ⟨rest, h1, h2, _⟩ := genSplit_colon_head s.data.length s.data (le_refl _)
  have hsep : (":" : String).data = [':'] := rfl
  rw [Split, hsep, if_neg (by simp), h1, h2 h, takeWhile_eq_self_of_not_mem s.data h]
  rfl

/-- Splitting an address with a colon at `:` starts with the text before the first
colon and the text between the first colon and the next (or the end). -/
theorem Split_colon_of_mem (s : String) (h : ':' ∈ s.data) :
    ∃ rest, Split s ":" =
      String.mk (s.data.takeWhile (· != ':'))
        :: String.mk (((s.data.dropWhile (· != ':')).drop 1).takeWhile (· != ':'))
        :: rest := by
  obtain ⟨rest, h1, _, h3⟩ := genSplit_colon_head s.data.length s.data (le_refl _)
  obtain ⟨k, hk, hrest⟩ := h3 h
  have hlt := length_dropWhile_drop_lt s.data h
  obtain ⟨rest2, h4, _, _⟩ :=
    genSplit_colon_head k ((s.data.dropWhile (· != ':')).drop 1) (by omega)
  have hsep : (":" : String).data = [':'] := rfl
  refine ⟨rest2.map String.mk, ?_⟩
  rw [Split, hsep, if_neg (by simp), h1, hrest, h4]
  rfl

/-- The offset `Index` finds for the marker `@s`: either the marker does not occur, or the text is
`u ++ "@s" ++ t` with no occurrence starting inside `u`, and the offset is `len(u)`. -/
theorem Index_marker (s : List Char) :
    (Index ['@', 's'] s = none ∧ ¬ ['@', 's'] <:+: s) ∨
    (∃ u t, s = u ++ '@' :: 's' :: t ∧ ¬ ['@', 's'] <:+: u ++ ['@'] ∧
      Index ['@', 's'] s = some u.length) := by
  induction s with
  | nil =>
    left
    refine ⟨by simp [Index, List.isPrefixOf], ?_⟩
    intro h
    have := h.length_le
    simp at this
  | cons c cs ih =>
    by_cases hp : ['@', 's'] <+: c :: cs
    · right
      obtain ⟨t, ht⟩ := hp
      refine ⟨[], t, ?_, ?_, ?_⟩
      · simpa using ht.symm
      · intro h
        have := h.length_le
        simp at this
      · have : (['@', 's'].isPrefixOf (c :: cs)) = true :=
          List.isPrefixOf_iff_prefix.2 ⟨t, ht⟩
        simp only [Index, this, if_true, List.length_nil]
    · have hb : (['@', 's'].isPrefixOf (c :: cs)) = false := by
        rw [Bool.eq_false_iff]
        intro h
        exact hp (List.isPrefixOf_iff_prefix.1 h)
      rcases ih with ⟨hn, hni⟩ | ⟨u, t, hs, hu, hi⟩
      · left
        refine ⟨by simp [Index, hb, hn], ?_⟩
        intro h
        rcases List.infix_cons_iff.1 h with h | h
        · exact hp h
        · exact hni h
      · right
        refine ⟨c :: u, t, by simp [hs], ?_, by simp [Index, hb, hi]⟩
        intro h
        rcases List.infix_cons_iff.1 h with h | h
        · apply hp
          refine h.trans ?_
          rw [hs]
          exact ⟨'s' :: t, by simp⟩
        · exact hu h

/-- The pieces `genSplit` cuts at `@s`, given enough rounds: the whole text when the
marker does not occur; otherwise the text before the first marker, then the pieces
of what follows it. -/
theorem genSplit_marker (n : Nat) (r : List Char) (h : r.length ≤ n) :
    (¬ ['@', 's'] <:+: r ∧ genSplit ['@', 's'] n r = [r]) ∨
    (∃ u t k, r = u ++ '@' :: 's' :: t ∧ ¬ ['@', 's'] <:+: u ++ ['@'] ∧ n = k + 1 ∧
      t.length ≤ k ∧ genSplit ['@', 's'] n r = u :: genSplit ['@', 's'] k t) := by
  rcases Index_marker r with ⟨hn, hni⟩ | ⟨u, t, hs, hu, hi⟩
  · left
    refine ⟨hni, ?_⟩
    cases n with
    | zero => rfl
    | succ k => simp [genSplit, hn]
  · right
    cases n with
    | zero =>
      rw [hs] at h
      simp at h
    | succ k =>
      refine ⟨u, t, k, hs, hu, rfl, ?_, ?_⟩
      · rw [hs] at h
        simp at h
        omega
      · simp only [genSplit, hi, List.length_cons, List.length_nil]
        subst hs
        simp

/-- Splitting at `@s`: the text alone when the marker does not occur; otherwise the text
before the first marker, then the text between the first marker and the next (or
the end). -/
theorem Split_marker (v : String) :
    (¬ ['@', 's'] <:+: v.data ∧ Split v "@s" = [v]) ∨
    (∃ u t hd rest, v.data = u ++ '@' :: 's' :: t ∧ ¬ ['@', 's'] <:+: u ++ ['@'] ∧
      Split v "@s" = String.mk u :: String.mk hd :: rest ∧
      ((¬ ['@', 's'] <:+: t ∧ hd = t) ∨
       (∃ t2, t = hd ++ '@' :: 's' :: t2 ∧ ¬ ['@', 's'] <:+: hd ++ ['@']))) := by
  have hsep : ("@s" : String).data = ['@', 's'] := rfl
  rcases genSplit_marker v.data.length v.data (le_refl _) with
    ⟨hni, hg⟩ | ⟨u, t, k, hs, hu, _, hk, hg⟩
  · left
    refine ⟨hni, ?_⟩
    rw [Split, hsep, if_neg (by simp), hg]
    rfl
  · right
    rcases genSplit_marker k t hk with ⟨hni2, hg2⟩ | ⟨u2, t2, k2, hs2, hu2, _, _, hg2⟩
    · refine ⟨u, t, t, [], hs, hu, ?_, Or.inl ⟨hni2, rfl⟩⟩
      rw [Split, hsep, if_neg (by simp), hg, hg2]
      rfl
    · refine ⟨u, t, u2, (genSplit ['@', 's'] k2 t2).map String.mk, hs, hu, ?_,
        Or.inr ⟨t2, hs2, hu2⟩⟩
      rw [Split, hsep, if_neg (by simp), hg, hg2]
      rfl

/-- The proxy descriptor of a gateway address: building it never fails, the key path
is the worker's, the port is the second `:`-separated piece or `"22"`, and user and
host come from the first piece, cut at the marker `@s`. -/
theorem gatewayConfig_spec (g : Globals) (gwAddr key : String) :
    ∃ p, gatewayConfig g gwAddr key = some p ∧ p.KeyPath = key ∧
      p.Port = (if ':' ∈ gwAddr.data then
          String.mk (((gwAddr.data.dropWhile (· != ':')).drop 1).takeWhile (· != ':'))
        else "22") ∧
      (¬ ['@', 's'] <:+: gwAddr.data.takeWhile (· != ':') →
        p.User = g.username ∧ p.Server = String.mk (gwAddr.data.takeWhile (· != ':'))) ∧
      (['@', 's'] <:+: gwAddr.data.takeWhile (· != ':') →
        ∃ u t, gwAddr.data.takeWhile (· != ':') = u ++ '@' :: 's' :: t ∧
          ¬ ['@', 's'] <:+: u ++ ['@'] ∧ p.User = String.mk u ∧
          ((¬ ['@', 's'] <:+: t ∧ p.Server = String.mk t) ∨
           (∃ h t2, t = h ++ '@' :: 's' :: t2 ∧ ¬ ['@', 's'] <:+: h ++ ['@'] ∧
             p.Server = String.mk h))) := by
  by_cases hc : ':' ∈ gwAddr.data
  · obtain ⟨rest, hsplit⟩ := Split_colon_of_mem gwAddr hc
    rcases Split_marker (String.mk (gwAddr.data.takeWhile (· != ':'))) with
      ⟨hni, hm⟩ | ⟨u, t, hd, rest2, hs, hu, hm, hhd⟩
    · refine ⟨⟨g.username, String.mk (gwAddr.data.takeWhile (· != ':')), key,
        String.mk (((gwAddr.data.dropWhile (· != ':')).drop 1).takeWhile (· != ':'))⟩,
        ?_, rfl, by simp [hc], fun _ => ⟨rfl, rfl⟩, fun h => absurd h hni⟩
      simp [gatewayConfig, hsplit, hm]
    · refine ⟨⟨String.mk u, String.mk hd, key,
        String.mk (((gwAddr.data.dropWhile (· != ':')).drop 1).takeWhile (· != ':'))⟩,
        ?_, rfl, by simp [hc], ?_, fun _ => ⟨u, t, hs, hu, rfl, ?_⟩⟩
      · simp [gatewayConfig, hsplit, hm]
      · intro hni
        exfalso
        apply hni
        rw [show gwAddr.data.takeWhile (· != ':') = u ++ '@' :: 's' :: t from hs]
        exact ⟨u, t, by simp⟩
      · rcases hhd with ⟨h1, h2⟩ | ⟨t2, h1, h2⟩
        · exact Or.inl ⟨h1, by rw [h2]⟩
        · exact Or.inr ⟨hd, t2, h1, h2, rfl⟩
  · have hsplit := Split_colon_of_not_mem gwAddr hc
    have htw := takeWhile_eq_self_of_not_mem gwAddr.data hc
    rw [htw]
    rcases Split_marker gwAddr with ⟨hni, hm⟩ | ⟨u, t, hd, rest2, hs, hu, hm, hhd⟩
    · refine ⟨⟨g.username, gwAddr, key, "22"⟩, ?_, rfl, by simp [hc],
        fun _ => ⟨rfl, rfl⟩, fun h => absurd h hni⟩
      simp [gatewayConfig, hsplit, hm]
    · refine ⟨⟨String.mk u, String.mk hd, key, "22"⟩,
        ?_, rfl, by simp [hc], ?_, fun _ => ⟨u, t, hs, hu, rfl, ?_⟩⟩
      · simp [gatewayConfig, hsplit, hm]
      · intro hni
        exact absurd (show ['@', 's'] <:+: gwAddr.data from by
          rw [hs]
          exact ⟨u, t, by simp⟩) hni
      · rcases hhd with ⟨h1, h2⟩ | ⟨t2, h1, h2⟩
        · exact Or.inl ⟨h1, by rw [h2]⟩
        · exact Or.inr ⟨hd, t2, h1, h2, rfl⟩

/-- The descriptor `execute` builds, in closed form: building never fails, the host is
the text before the first colon, the port the text between the first colon and the
next (or the end), or `"22"` without a colon, and the proxy is the gateway's
descriptor when a gateway address is given. -/
theorem sshConfig_eq (g : Globals) (addr gwAddr key : String) (timeout : Int) :
    ∃ p, gatewayConfig g gwAddr key = some p ∧
      sshConfig g addr gwAddr key timeout = some
        { User := g.username
          Server := String.mk (addr.data.takeWhile (· != ':'))
          KeyPath := key
          Port := if ':' ∈ addr.data then
              String.mk (((addr.data.dropWhile (· != ':')).drop 1).takeWhile (· != ':'))
            else "22"
          Timeout := timeout
          Proxy := if gwAddr = "" then DefaultConfig.zero else p } := by
  obtain ⟨p, hp, _⟩ := gatewayConfig_spec g gwAddr key
  refine ⟨p, hp, ?_⟩
  by_cases hc : ':' ∈ addr.data
  · obtain ⟨rest, hsplit⟩ := Split_colon_of_mem addr hc
    by_cases hg : gwAddr = ""
    · simp [sshConfig, hsplit, hc, hg]
    · simp [sshConfig, hsplit, hc, hg, hp]
  · have hsplit := Split_colon_of_not_mem addr hc
    have htw := takeWhile_eq_self_of_not_mem addr.data hc
    by_cases hg : gwAddr = ""
    · simp [sshConfig, hsplit, hc, hg, htw]
    · simp [sshConfig, hsplit, hc, hg, hp, htw]

theorem eq_takeWhile_append_colon (s : List Char) (h : ':' ∈ s) :
    s = s.takeWhile (· != ':') ++ ':' :: (s.dropWhile (· != ':')).drop 1 := by
  induction s with
  | nil => simp at h
  | cons c cs ih =>
    by_cases hc : c = ':'
    · subst hc
      simp [List.takeWhile, List.dropWhile]
    · have hmem : ':' ∈ cs := by
        rcases List.mem_cons.1 h with h | h
        · exact absurd h.symm hc
        · exact h
      have hc2 : (c != ':') = true := by simpa using hc
      simp only [List.takeWhile, List.dropWhile, hc2, List.cons_append]
      exact congrArg (c :: ·) (ih hmem)

theorem colon_not_mem_takeWhile (s : List Char) : ':' ∉ s.takeWhile (· != ':') := by
  intro h
  have := List.mem_takeWhile_imp h
  simp at this

theorem takeWhile_eq_self_iff (s : List Char) :
    s.takeWhile (· != ':') = s ↔ ':' ∉ s := by
  constructor
  · intro h
    rw [← h]
    exact colon_not_mem_takeWhile s
  · exact takeWhile_eq_self_of_not_mem s

/-! ## The target descriptor (C3, C4) -/

/-- C3. For every raw target address, and whatever the globals (the `--port` flag
among them), `execute` builds its descriptor without failing; the host is the first
piece of `strings.Split(addr, ":")`, that is the text before the first colon; the
port is the second piece when there is one, that is the text between the first colon
and the next (or the end), and `"22"` otherwise.  An address without a colon gives
host = the address and port = `"22"`. -/
theorem sshConfig_target (g : Globals) (addr gwAddr key : String) (timeout : Int) :
    ∃ c, sshConfig g addr gwAddr key timeout = some c ∧
      (Split addr ":")[0]? = some c.Server ∧
      c.Port = ((Split addr ":")[1]?).getD "22" ∧
      c.Server = String.mk (addr.data.takeWhile (· != ':')) ∧
      c.Port = (if ':' ∈ addr.data then
          String.mk (((addr.data.dropWhile (· != ':')).drop 1).takeWhile (· != ':'))
        else "22") ∧
      (':' ∉ addr.data → c.Server = addr ∧ c.Port = "22") ∧
      (∀ port, sshConfig { g with port := port } addr gwAddr key timeout = some c) := by
  obtain ⟨p, _, hc⟩ := sshConfig_eq g addr gwAddr key timeout
  refine ⟨_, hc, ?_, ?_, rfl, rfl, ?_, ?_⟩
  · by_cases hm : ':' ∈ addr.data
    · obtain ⟨rest, hsplit⟩ := Split_colon_of_mem addr hm
      simp [hsplit]
    · simp [Split_colon_of_not_mem addr hm, takeWhile_eq_self_of_not_mem addr.data hm]
  · by_cases hm : ':' ∈ addr.data
    · obtain ⟨rest, hsplit⟩ := Split_colon_of_mem addr hm
      simp [hsplit, hm]
    · simp [Split_colon_of_not_mem addr hm, hm]
  · intro hm
    simp [hm, takeWhile_eq_self_of_not_mem addr.data hm]
  · intro port
    exact hc

/-- C4, as stated, fails: for `"a:b:c"` the host is `"a"` and the port is `"b"`, not the
whole remainder `"b:c"`, so host, colon and port do not give the address back. -/
theorem sshConfig_two_colons :
    ∃ c, sshConfig ⟨"root", 22⟩ "a:b:c" "" "id_rsa" 1000000000 = some c ∧
      c.Server = "a" ∧ c.Port = "b" ∧ c.Port ≠ "b:c" ∧
      c.Server ++ ":" ++ c.Port ≠ "a:b:c" := by
  decide

/-- C4, amended. For every raw target address with at least one colon, the host is the
text before the first colon and the port is the text after it up to the next colon
(or the end); host, colon and port make up a prefix of the address, and make up the
whole address exactly when it has one colon. -/
theorem sshConfig_colon (g : Globals) (addr gwAddr key : String) (timeout : Int)
    (h : ':' ∈ addr.data) :
    ∃ c, sshConfig g addr gwAddr key timeout = some c ∧
      c.Server = String.mk (addr.data.takeWhile (· != ':')) ∧
      c.Port = String.mk
        (((addr.data.dropWhile (· != ':')).drop 1).takeWhile (· != ':')) ∧
      (c.Server ++ ":" ++ c.Port).data <+: addr.data ∧
      (c.Server ++ ":" ++ c.Port = addr ↔ addr.data.count ':' = 1) := by
  obtain ⟨p, _, hc⟩ := sshConfig_eq g addr gwAddr key timeout
  have e := eq_takeWhile_append_colon addr.data h
  have hn := colon_not_mem_takeWhile addr.data
  refine ⟨_, hc, rfl, by simp [h], ?_, ?_⟩
  · simp only [if_pos h, String.data_append]
    generalize (addr.data.dropWhile (· != ':')).drop 1 = r at e ⊢
    generalize addr.data.takeWhile (· != ':') = tw at e ⊢
    rw [e]
    obtain ⟨t, ht⟩ := List.takeWhile_prefix (· != ':') (l := r)
    refine ⟨t, ?_⟩
    simp [ht]
  · simp only [if_pos h, String.ext_iff, String.data_append]
    have hr := takeWhile_eq_self_iff ((addr.data.dropWhile (· != ':')).drop 1)
    generalize (addr.data.dropWhile (· != ':')).drop 1 = r at e hr ⊢
    generalize addr.data.takeWhile (· != ':') = tw at e hn ⊢
    rw [e]
    have hcount : List.count ':' (tw ++ ':' :: r) = 1 + List.count ':' r := by
      rw [List.count_append, List.count_cons_self, List.count_eq_zero_of_not_mem hn]
      omega
    rw [hcount]
    constructor
    · intro h2
      have h3 : List.takeWhile (fun x => x != ':') r = r := by simpa using h2
      have := List.count_eq_zero_of_not_mem (hr.1 h3)
      omega
    · intro h2
      have h3 : ':' ∉ r := List.count_eq_zero.1 (by omega)
      simp [hr.2 h3]

/-- C4, amended, at the addresses `"a:b:c"` and `"10.0.0.1:2222"`. -/
theorem sshConfig_colon_witness :
    (∃ c, sshConfig ⟨"root", 22⟩ "a:b:c" "" "id_rsa" 1 = some c ∧
      c.Server = "a" ∧ c.Port = "b") ∧
    (∃ c, sshConfig ⟨"root", 22⟩ "10.0.0.1:2222" "" "id_rsa" 1 = some c ∧
      c.Server ++ ":" ++ c.Port = "10.0.0.1:2222") := by
  constructor
  · obtain ⟨c, hc, h1, h2, _⟩ :=
      sshConfig_colon ⟨"root", 22⟩ "a:b:c" "" "id_rsa" 1 (by decide)
    exact ⟨c, hc, by rw [h1]; decide, by rw [h2]; decide⟩
  · obtain ⟨c, hc, _, _, _, h4⟩ :=
      sshConfig_colon ⟨"root", 22⟩ "10.0.0.1:2222" "" "id_rsa" 1 (by decide)
    exact ⟨c, hc, h4.2 (by decide)⟩

/-! ## The gateway descriptor (C5) -/

theorem gatewayConfig_alice (g : Globals) (key : String) :
    gatewayConfig g "alice@shost:2222" key = some ⟨"alice", "host", key, "2222"⟩ := by
  have h1 : Split "alice@shost:2222" ":" = ["alice@shost", "2222"] := by decide
  have h2 : Split "alice@shost" "@s" = ["alice", "host"] := by decide
  simp [gatewayConfig, h1, h2]

/-- C5. For every gateway string and default username: an empty gateway string leaves
the proxy at its zero value; otherwise the proxy port is the second `:`-separated
piece of the gateway string, or `"22"` when there is none, and the first piece is cut
at the marker `@s`: without a marker the proxy user is the default username and the
proxy host is the whole first piece; with a marker the proxy user is the text before
the first marker and the proxy host is the piece that follows it (up to the next
marker, or the end).  `"alice@shost:2222"` gives user `"alice"`, host `"host"`, port
`"2222"`. -/
theorem sshConfig_gateway (g : Globals) (addr gwAddr key : String) (timeout : Int) :
    ∃ c, sshConfig g addr gwAddr key timeout = some c ∧
      (gwAddr = "" → c.Proxy = DefaultConfig.zero) ∧
      (gwAddr ≠ "" →
        c.Proxy.Port = ((Split gwAddr ":")[1]?).getD "22" ∧
        c.Proxy.Port = (if ':' ∈ gwAddr.data then
            String.mk (((gwAddr.data.dropWhile (· != ':')).drop 1).takeWhile (· != ':'))
          else "22") ∧
        (¬ ['@', 's'] <:+: gwAddr.data.takeWhile (· != ':') →
          c.Proxy.User = g.username ∧
          c.Proxy.Server = String.mk (gwAddr.data.takeWhile (· != ':'))) ∧
        (['@', 's'] <:+: gwAddr.data.takeWhile (· != ':') →
          ∃ u t, gwAddr.data.takeWhile (· != ':') = u ++ '@' :: 's' :: t ∧
            ¬ ['@', 's'] <:+: u ++ ['@'] ∧ c.Proxy.User = String.mk u ∧
            ((¬ ['@', 's'] <:+: t ∧ c.Proxy.Server = String.mk t) ∨
             (∃ h t2, t = h ++ '@' :: 's' :: t2 ∧ ¬ ['@', 's'] <:+: h ++ ['@'] ∧
               c.Proxy.Server = String.mk h)))) ∧
      (∃ c2, sshConfig g addr "alice@shost:2222" key timeout = some c2 ∧
        c2.Proxy.User = "alice" ∧ c2.Proxy.Server = "host" ∧ c2.Proxy.Port = "2222") := by
  obtain ⟨p, hp, hc⟩ := sshConfig_eq g addr gwAddr key timeout
  obtain ⟨p2, hp2, _, hport, habsent, hpresent⟩ := gatewayConfig_spec g gwAddr key
  have hpp : p2 = p := Option.some.inj (hp2.symm.trans hp)
  subst hpp
  refine ⟨_, hc, ?_, ?_, ?_⟩
  · intro hg
    simp [hg]
  · intro hg
    simp only [if_neg hg]
    refine ⟨?_, hport, habsent, hpresent⟩
    rw [hport]
    by_cases hm : ':' ∈ gwAddr.data
    · obtain ⟨rest, hsplit⟩ := Split_colon_of_mem gwAddr hm
      simp [hsplit, hm]
    · simp [Split_colon_of_not_mem gwAddr hm, hm]
  · obtain ⟨q, hq, hc2⟩ := sshConfig_eq g addr "alice@shost:2222" key timeout
    rw [gatewayConfig_alice] at hq
    have hqq := Option.some.inj hq
    subst hqq
    refine ⟨_, hc2, ?_, ?_, ?_⟩ <;> simp

/-! ## The streaming loop -/

/-- The loop over values none of which is the completion signal: it does not exit,
it keeps the last error value received, and it writes the non-empty lines. -/
theorem loop_noDone (addr : String) (pre : List StreamEvent)
    (hpre : ∀ e ∈ pre, e.isDone = false) (st : LoopState) :
    (loop addr pre st).isTimeout = st.isTimeout ∧
    (loop addr pre st).exited = st.exited ∧
    (loop addr pre st).consumed = st.consumed + pre.length ∧
    (loop addr pre st).err = ((pre.filterMap StreamEvent.errValue?).getLast?).getD st.err ∧
    stdoutWrites (loop addr pre st).effects = stdoutWrites st.effects ++
      ((pre.filterMap StreamEvent.outline?).filter (· ≠ "")).map
        (fun l => "[" ++ addr ++ "] " ++ l ++ "\n") ∧
    stderrWrites (loop addr pre st).effects = stderrWrites st.effects ++
      ((pre.filterMap StreamEvent.errline?).filter (· ≠ "")).map
        (fun l => "[" ++ addr ++ "] " ++ l ++ "\n") ∧
    reports (loop addr pre st).effects = reports st.effects ∧
    wgDones (loop addr pre st).effects = wgDones st.effects := by
  induction pre generalizing st with
  | nil => simp [loop]
  | cons e es ih =>
    have hes : ∀ e ∈ es, e.isDone = false := fun x hx => hpre x (List.mem_cons_of_mem _ hx)
    cases e with
    | done v =>
      have := hpre (.done v) (List.mem_cons_self _ _)
      simp [StreamEvent.isDone] at this
    | stdout l =>
      obtain ⟨h1, h2, h3, h4, h5, h6, h7, h8⟩ := ih hes
        { st with
          effects :=
            if l ≠ "" then st.effects ++ [.stdout ("[" ++ addr ++ "] " ++ l ++ "\n")]
            else st.effects
          consumed := st.consumed + 1 }
      simp only [loop]
      refine ⟨h1, h2, ?_, ?_, ?_, ?_, ?_, ?_⟩
      · rw [h3]; simp; omega
      · rw [h4]; simp [StreamEvent.errValue?]
      · rw [h5]
        by_cases hl : l = "" <;> simp [hl, stdoutWrites, StreamEvent.outline?]
      · rw [h6]
        by_cases hl : l = "" <;> simp [hl, stderrWrites, StreamEvent.errline?]
      · rw [h7]
        by_cases hl : l = "" <;> simp [hl, reports]
      · rw [h8]
        by_cases hl : l = "" <;> simp [hl, wgDones]
    | stderr l =>
      obtain ⟨h1, h2, h3, h4, h5, h6, h7, h8⟩ := ih hes
        { st with
          effects :=
            if l ≠ "" then st.effects ++ [.stderr ("[" ++ addr ++ "] " ++ l ++ "\n")]
            else st.effects
          consumed := st.consumed + 1 }
      simp only [loop]
      refine ⟨h1, h2, ?_, ?_, ?_, ?_, ?_, ?_⟩
      · rw [h3]; simp; omega
      · rw [h4]; simp [StreamEvent.errValue?]
      · rw [h5]
        by_cases hl : l = "" <;> simp [hl, stdoutWrites, StreamEvent.outline?]
      · rw [h6]
        by_cases hl : l = "" <;> simp [hl, stderrWrites, StreamEvent.errline?]
      · rw [h7]
        by_cases hl : l = "" <;> simp [hl, reports]
      · rw [h8]
        by_cases hl : l = "" <;> simp [hl, wgDones]
    | err e =>
      obtain ⟨h1, h2, h3, h4, h5, h6, h7, h8⟩ := ih hes
        { st with err := e, consumed := st.consumed + 1 }
      simp only [loop]
      refine ⟨h1, h2, ?_, ?_, ?_, ?_, h7, h8⟩
      · rw [h3]; simp; omega
      · rw [h4]
        simp only [List.filterMap_cons, StreamEvent.errValue?]
        cases hf : es.filterMap StreamEvent.errValue? with
        | nil => simp
        | cons a as =>
          rw [List.getLast?_cons_cons, List.getLast?_eq_getLast _ (List.cons_ne_nil a as)]
          rfl
      · rw [h5]; simp [StreamEvent.outline?]
      · rw [h6]; simp [StreamEvent.errline?]

theorem loop_append (addr : String) (pre rest : List StreamEvent)
    (hpre : ∀ e ∈ pre, e.isDone = false) (st : LoopState) :
    loop addr (pre ++ rest) st = loop addr rest (loop addr pre st) := by
  induction pre generalizing st with
  | nil => simp [loop]
  | cons e es ih =>
    have hes : ∀ e ∈ es, e.isDone = false := fun x hx => hpre x (List.mem_cons_of_mem _ hx)
    cases e with
    | done v =>
      have := hpre (.done v) (List.mem_cons_self _ _)
      simp [StreamEvent.isDone] at this
    | stdout l =>
      rw [List.cons_append]
      simp only [loop]
      exact ih hes _
    | stderr l =>
      rw [List.cons_append]
      simp only [loop]
      exact ih hes _
    | err e =>
      rw [List.cons_append]
      simp only [loop]
      exact ih hes _

theorem beforeDone_noDone (evs : List StreamEvent) : ∀ e ∈ beforeDone evs, e.isDone = false := by
  intro e he
  have := List.mem_takeWhile_imp he
  simpa using this

/-- Every sequence of values is the values before the completion signal, followed by
nothing or by the completion signal and what comes after it. -/
theorem beforeDone_cases (evs : List StreamEvent) :
    evs = beforeDone evs ∨ ∃ v post, evs = beforeDone evs ++ .done v :: post := by
  induction evs with
  | nil => left; rfl
  | cons e es ih =>
    cases e with
    | done v => right; exact ⟨v, es, by simp [beforeDone, StreamEvent.isDone]⟩
    | stdout l =>
      rcases ih with h | ⟨v, post, h⟩
      · left
        simp only [beforeDone, List.takeWhile, StreamEvent.isDone, Bool.not_false]
        exact congrArg _ h
      · right
        refine ⟨v, post, ?_⟩
        simp only [beforeDone, List.takeWhile, StreamEvent.isDone, Bool.not_false,
          List.cons_append]
        exact congrArg _ h
    | stderr l =>
      rcases ih with h | ⟨v, post, h⟩
      · left
        simp only [beforeDone, List.takeWhile, StreamEvent.isDone, Bool.not_false]
        exact congrArg _ h
      · right
        refine ⟨v, post, ?_⟩
        simp only [beforeDone, List.takeWhile, StreamEvent.isDone, Bool.not_false,
          List.cons_append]
        exact congrArg _ h
    | err x =>
      rcases ih with h | ⟨v, post, h⟩
      · left
        simp only [beforeDone, List.takeWhile, StreamEvent.isDone, Bool.not_false]
        exact congrArg _ h
      · right
        refine ⟨v, post, ?_⟩
        simp only [beforeDone, List.takeWhile, StreamEvent.isDone, Bool.not_false,
          List.cons_append]
        exact congrArg _ h

/-- The values before the completion signal of `pre ++ done v :: post` are `pre`, when
`pre` holds no completion signal. -/
theorem beforeDone_append_done (pre post : List StreamEvent) (v : Bool)
    (hpre : ∀ e ∈ pre, e.isDone = false) :
    beforeDone (pre ++ .done v :: post) = pre := by
  induction pre with
  | nil => simp [beforeDone, StreamEvent.isDone]
  | cons e es ih =>
    have hes : ∀ e ∈ es, e.isDone = false := fun x hx => hpre x (List.mem_cons_of_mem _ hx)
    have he := hpre e (List.mem_cons_self _ _)
    have := ih hes
    simp only [beforeDone] at this ⊢
    simp [List.takeWhile, he, this]

/-- The loop over `pre ++ done v :: post`, when `pre` holds no completion signal: the
loop exits at the signal, having received `len(pre) + 1` values. -/
theorem loop_done (addr : String) (pre post : List StreamEvent) (v : Bool)
    (hpre : ∀ e ∈ pre, e.isDone = false) (st : LoopState) :
    loop addr (pre ++ .done v :: post) st =
      { loop addr pre st with
        isTimeout := v, consumed := st.consumed + pre.length + 1, exited := true } := by
  rw [loop_append addr pre _ hpre]
  obtain ⟨_, _, h3, _⟩ := loop_noDone addr pre hpre st
  simp [loop, h3]

/-- C8. For every target address and every sequence of values the streaming loop
receives: the loop writes to standard output exactly the non-empty lines received
from `stdoutChan` before the completion signal, in the order received, each as
`"[" ++ addr ++ "] " ++ line` and a newline; it writes to standard error exactly the
non-empty lines received from `stderrChan` before the completion signal, in the same
format; it does nothing else (no report, no `wg.Done()`); and the completion signal
is the last value received: what follows it in the sequence changes nothing. -/
theorem loop_writes (addr : String) (evs : List StreamEvent) :
    stdoutWrites (loop addr evs LoopState.start).effects =
      (((beforeDone evs).filterMap StreamEvent.outline?).filter (· ≠ "")).map
        (fun l => "[" ++ addr ++ "] " ++ l ++ "\n") ∧
    stderrWrites (loop addr evs LoopState.start).effects =
      (((beforeDone evs).filterMap StreamEvent.errline?).filter (· ≠ "")).map
        (fun l => "[" ++ addr ++ "] " ++ l ++ "\n") ∧
    reports (loop addr evs LoopState.start).effects = [] ∧
    wgDones (loop addr evs LoopState.start).effects = 0 ∧
    ((evs = beforeDone evs ∧
        (loop addr evs LoopState.start).exited = false ∧
        (loop addr evs LoopState.start).consumed = evs.length) ∨
     (∃ v post, evs = beforeDone evs ++ .done v :: post ∧
        (loop addr evs LoopState.start).exited = true ∧
        (loop addr evs LoopState.start).isTimeout = v ∧
        (loop addr evs LoopState.start).consumed = (beforeDone evs).length + 1 ∧
        loop addr evs LoopState.start =
          loop addr (beforeDone evs ++ [.done v]) LoopState.start)) := by
  have hn := beforeDone_noDone evs
  rcases beforeDone_cases evs with h | ⟨v, post, h⟩
  · rw [← h] at hn ⊢
    obtain ⟨_, h2, h3, _, h5, h6, h7, h8⟩ := loop_noDone addr evs hn LoopState.start
    refine ⟨?_, ?_, ?_, ?_, Or.inl ⟨rfl, ?_, ?_⟩⟩
    · simpa [LoopState.start, stdoutWrites] using h5
    · simpa [LoopState.start, stderrWrites] using h6
    · simpa [LoopState.start, reports] using h7
    · simpa [LoopState.start, wgDones] using h8
    · simpa [LoopState.start] using h2
    · simpa [LoopState.start] using h3
  · generalize beforeDone evs = pre at h hn ⊢
    subst h
    obtain ⟨_, _, _, _, h5, h6, h7, h8⟩ := loop_noDone addr pre hn LoopState.start
    rw [loop_done addr pre post v hn]
    refine ⟨?_, ?_, ?_, ?_, Or.inr ⟨v, post, rfl, rfl, rfl, ?_,
      (loop_done addr pre [] v hn LoopState.start).symm⟩⟩
    · simpa [LoopState.start, stdoutWrites] using h5
    · simpa [LoopState.start, stderrWrites] using h6
    · simpa [LoopState.start, reports] using h7
    · simpa [LoopState.start, wgDones] using h8
    · simp [LoopState.start]

/-! ## The worker's reports (C6, C7, C10) -/

/-- A worker whose submission succeeded and whose loop receives `pre`, then the
completion signal carrying `v`: what `execute` does, in closed form. -/
theorem execute_done (g : Globals) (Stream : Provider) (addr gwAddr key cmd : String)
    (timeout streamTimeout : Int) (cfg : MakeConfig) (pre post : List StreamEvent) (v : Bool)
    (hcfg : sshConfig g addr gwAddr key timeout = some cfg)
    (hS : Stream cfg cmd streamTimeout = ⟨pre ++ .done v :: post, none⟩)
    (hpre : ∀ e ∈ pre, e.isDone = false) :
    execute g Stream addr gwAddr key cmd timeout streamTimeout = some
      { effects := .stderr ("# execute on " ++ addr ++ "\n") ::
          (loop addr pre LoopState.start).effects ++
          terminalReports addr (lastErr pre) v ++ [.wgDone]
        consumed := pre.length + 1
        returned := true } := by
  obtain ⟨_, _, _, h4, _⟩ := loop_noDone addr pre hpre LoopState.start
  have hl := loop_done addr pre post v hpre LoopState.start
  have h4' : (loop addr pre LoopState.start).err = lastErr pre := by
    rw [h4]
    rfl
  simp only [LoopState.start] at hl h4'
  simp [execute, hcfg, hS, hl, h4', LoopState.start]

/-- The worker never panics: `execute` is defined on every input. -/
theorem execute_total (g : Globals) (Stream : Provider) (addr gwAddr key cmd : String)
    (timeout streamTimeout : Int) :
    ∃ r, execute g Stream addr gwAddr key cmd timeout streamTimeout = some r := by
  have hcfg : ∃ cfg, sshConfig g addr gwAddr key timeout = some cfg := by
    obtain ⟨p, _, hc⟩ := sshConfig_eq g addr gwAddr key timeout
    exact ⟨_, hc⟩
  obtain ⟨cfg, hc⟩ := hcfg
  cases he : (Stream cfg cmd streamTimeout).err with
  | some e => simp [execute, hc, he]
  | none =>
    by_cases hx : (loop addr (Stream cfg cmd streamTimeout).events LoopState.start).exited
    · simp [execute, hc, he, hx, LoopState.start] at hx ⊢
    · simp [execute, hc, he, hx, LoopState.start] at hx ⊢
      simp [hx]

/-- A timeout report is never an error report. -/
theorem timeout_ne_error (addr e : String) :
    "[" ++ addr ++ "] timeout while read from stream" ≠ "[" ++ addr ++ "] error: " ++ e := by
  intro h
  have h2 := congrArg String.data h
  simp only [String.data_append, List.append_assoc] at h2
  have h3 := List.append_cancel_left (List.append_cancel_left h2)
  simp at h3

theorem reports_append (a b : List Effect) : reports (a ++ b) = reports a ++ reports b := by
  simp [reports]

theorem reports_terminalReports (addr : String) (err : Option String) (v : Bool) :
    reports (terminalReports addr err v) =
      (match err with
        | some e => ["[" ++ addr ++ "] error: " ++ e]
        | none => []) ++
      (if v = false then ["[" ++ addr ++ "] timeout while read from stream"] else []) ∧
    terminalReports addr err v = (reports (terminalReports addr err v)).map Effect.send := by
  cases err <;> cases v <;> simp [terminalReports, reports]

/-- The reports among the effects of a worker whose loop exits: those sent after the
loop. -/
theorem reports_execute_done (addr : String) (pre : List StreamEvent) (v : Bool)
    (hpre : ∀ e ∈ pre, e.isDone = false) :
    reports (Effect.stderr ("# execute on " ++ addr ++ "\n") ::
      (loop addr pre LoopState.start).effects ++
      terminalReports addr (lastErr pre) v ++ [.wgDone]) =
      (match lastErr pre with
        | some e => ["[" ++ addr ++ "] error: " ++ e]
        | none => []) ++
      (if v = false then ["[" ++ addr ++ "] timeout while read from stream"] else []) := by
  obtain ⟨_, _, _, _, _, _, h7, _⟩ := loop_noDone addr pre hpre LoopState.start
  have hw : reports (Effect.stderr ("# execute on " ++ addr ++ "\n") ::
      (loop addr pre LoopState.start).effects) = [] := by
    have : reports (loop addr pre LoopState.start).effects = [] := by
      simpa [LoopState.start, reports] using h7
    simpa [reports] using this
  rw [reports_append, reports_append, hw, (reports_terminalReports addr (lastErr pre) v).1]
  simp [reports]

/-- C7. For every worker whose submission succeeded and whose loop exits on a
completion signal carrying `v`, after the values `pre`: the worker returns, and the
reports it sends come after everything it writes and are, in this order, the error
report `"[addr] error: msg"` when the pending error (the error value received last) is
not `nil`, then the timeout report `"[addr] timeout while read from stream"` exactly
when `v` is false.  So a timed-out worker sends the timeout report last whatever it
wrote before, the reports are at most two, and with no pending error and `v` true
there is none. -/
theorem execute_reports (g : Globals) (Stream : Provider) (addr gwAddr key cmd : String)
    (timeout streamTimeout : Int) (cfg : MakeConfig) (pre post : List StreamEvent) (v : Bool)
    (hcfg : sshConfig g addr gwAddr key timeout = some cfg)
    (hS : Stream cfg cmd streamTimeout = ⟨pre ++ .done v :: post, none⟩)
    (hpre : ∀ e ∈ pre, e.isDone = false) :
    ∃ run writes, execute g Stream addr gwAddr key cmd timeout streamTimeout = some run ∧
      run.returned = true ∧
      reports run.effects =
        (match lastErr pre with
          | some e => ["[" ++ addr ++ "] error: " ++ e]
          | none => []) ++
        (if v = false then ["[" ++ addr ++ "] timeout while read from stream"] else []) ∧
      run.effects = writes ++ (reports run.effects).map Effect.send ++ [.wgDone] ∧
      reports writes = [] ∧ wgDones writes = 0 ∧
      (v = false → (reports run.effects).getLast? =
        some ("[" ++ addr ++ "] timeout while read from stream")) ∧
      (v = true → "[" ++ addr ++ "] timeout while read from stream" ∉ reports run.effects) ∧
      (reports run.effects).length ≤ 2 ∧
      (lastErr pre = none → v = true → reports run.effects = []) := by
  have he := execute_done g Stream addr gwAddr key cmd timeout streamTimeout cfg pre post v
    hcfg hS hpre
  obtain ⟨_, _, _, _, _, _, h7, h8⟩ := loop_noDone addr pre hpre LoopState.start
  obtain ⟨ht1, ht2⟩ := reports_terminalReports addr (lastErr pre) v
  have hw : reports (Effect.stderr ("# execute on " ++ addr ++ "\n") ::
      (loop addr pre LoopState.start).effects) = [] := by
    have : reports (loop addr pre LoopState.start).effects = [] := by
      simpa [LoopState.start, reports] using h7
    simpa [reports] using this
  have hw2 : wgDones (Effect.stderr ("# execute on " ++ addr ++ "\n") ::
      (loop addr pre LoopState.start).effects) = 0 := by
    have : wgDones (loop addr pre LoopState.start).effects = 0 := by
      simpa [LoopState.start, wgDones] using h8
    simpa [wgDones] using this
  have hr : reports (Effect.stderr ("# execute on " ++ addr ++ "\n") ::
      (loop addr pre LoopState.start).effects ++
      terminalReports addr (lastErr pre) v ++ [.wgDone]) =
      reports (terminalReports addr (lastErr pre) v) := by
    rw [reports_append, reports_append, hw]
    simp [reports]
  refine ⟨_, _, he, rfl, ?_, ?_, hw, hw2, ?_, ?_, ?_, ?_⟩
  · rw [hr, ht1]
  · rw [hr, ← ht2]
  · intro hv
    rw [hr, ht1, hv]
    cases lastErr pre <;> simp
  · intro hv
    rw [hr, ht1, hv]
    cases lastErr pre <;> simp [timeout_ne_error]
  · rw [hr, ht1]
    cases lastErr pre <;> cases v <;> simp
  · intro hl hv
    rw [hr, ht1, hl, hv]
    simp

/-- C7 at a worker that wrote a line, recorded an error and then timed out: it sends
both reports, the error report first. -/
theorem execute_reports_witness :
    ∃ run, execute ⟨"root", 22⟩
        (fun _ _ _ => ⟨[.stdout "partial", .err (some "Process exited with status 1"),
          .done false, .stdout "late"], none⟩)
        "web1:2222" "" "id_rsa" "uptime" 1 2 = some run ∧
      stdoutWrites run.effects = ["[web1:2222] partial\n"] ∧
      reports run.effects = ["[web1:2222] error: Process exited with status 1",
        "[web1:2222] timeout while read from stream"] := by
  obtain ⟨run, writes, h1, _, h3, _⟩ := execute_reports ⟨"root", 22⟩
    (fun _ _ _ => ⟨[.stdout "partial", .err (some "Process exited with status 1"),
      .done false, .stdout "late"], none⟩)
    "web1:2222" "" "id_rsa" "uptime" 1 2
    ⟨"root", "web1", "id_rsa", "2222", 1, DefaultConfig.zero⟩
    [.stdout "partial", .err (some "Process exited with status 1")] [.stdout "late"] false
    (by decide) rfl (by decide)
  refine ⟨run, h1, ?_, ?_⟩
  · have h1' : execute ⟨"root", 22⟩
        (fun _ _ _ => ⟨[.stdout "partial", .err (some "Process exited with status 1"),
          .done false, .stdout "late"], none⟩)
        "web1:2222" "" "id_rsa" "uptime" 1 2 = some
          ⟨[.stderr "# execute on web1:2222\n", .stdout "[web1:2222] partial\n",
            .send "[web1:2222] error: Process exited with status 1",
            .send "[web1:2222] timeout while read from stream", .wgDone], 3, true⟩ := by
      decide
    rw [h1'] at h1
    rw [← Option.some.inj h1]
    decide
  · rw [h3]
    decide

/-- C10. For every worker whose submission succeeded and whose loop exits on a
completion signal, after the values `pre`: the pending error the loop leaves is the
error value received last from `errChan`, not the first that is not `nil`.  When that
last value is an error `e`, the first report is `"[addr] error: e"`; when it is `nil`,
or no value was received, the worker sends no error report: its reports are the
timeout report alone, or nothing. -/
theorem execute_pending_error (g : Globals) (Stream : Provider)
    (addr gwAddr key cmd : String) (timeout streamTimeout : Int) (cfg : MakeConfig)
    (pre post : List StreamEvent) (v : Bool)
    (hcfg : sshConfig g addr gwAddr key timeout = some cfg)
    (hS : Stream cfg cmd streamTimeout = ⟨pre ++ .done v :: post, none⟩)
    (hpre : ∀ e ∈ pre, e.isDone = false) :
    ∃ run, execute g Stream addr gwAddr key cmd timeout streamTimeout = some run ∧
      (loop addr (pre ++ .done v :: post) LoopState.start).err =
        ((pre.filterMap StreamEvent.errValue?).getLast?).getD none ∧
      (∀ e, (pre.filterMap StreamEvent.errValue?).getLast? = some (some e) →
        reports run.effects = ("[" ++ addr ++ "] error: " ++ e) ::
          (if v = false then ["[" ++ addr ++ "] timeout while read from stream"] else [])) ∧
      ((pre.filterMap StreamEvent.errValue?).getLast? = some none →
        reports run.effects =
          if v = false then ["[" ++ addr ++ "] timeout while read from stream"] else []) ∧
      ((pre.filterMap StreamEvent.errValue?).getLast? = none →
        reports run.effects =
          if v = false then ["[" ++ addr ++ "] timeout while read from stream"] else []) := by
  have he := execute_done g Stream addr gwAddr key cmd timeout streamTimeout cfg pre post v
    hcfg hS hpre
  have hr := reports_execute_done addr pre v hpre
  obtain ⟨_, _, _, h4, _⟩ := loop_noDone addr pre hpre LoopState.start
  refine ⟨_, he, ?_, ?_, ?_, ?_⟩
  · rw [loop_done addr pre post v hpre]
    exact h4
  · intro e hl
    rw [hr]
    simp [lastErr, hl]
  · intro hl
    rw [hr]
    simp [lastErr, hl]
  · intro hl
    rw [hr]
    simp [lastErr, hl]

/-- C10 at a worker that receives an error and then `nil` from `errChan` (no report at
all), and at one that receives two errors (the report carries the second). -/
theorem execute_pending_error_witness :
    (∃ run, execute ⟨"root", 22⟩
        (fun _ _ _ => ⟨[.err (some "Process exited with status 1"), .err none,
          .done true], none⟩)
        "web1" "" "id_rsa" "uptime" 1 2 = some run ∧
      reports run.effects = []) ∧
    (∃ run, execute ⟨"root", 22⟩
        (fun _ _ _ => ⟨[.err (some "first"), .err (some "second"), .done true], none⟩)
        "web1" "" "id_rsa" "uptime" 1 2 = some run ∧
      reports run.effects = ["[web1] error: second"]) := by
  constructor
  · obtain ⟨run, h1, _, _, h4, _⟩ := execute_pending_error ⟨"root", 22⟩
      (fun _ _ _ => ⟨[.err (some "Process exited with status 1"), .err none,
        .done true], none⟩)
      "web1" "" "id_rsa" "uptime" 1 2
      ⟨"root", "web1", "id_rsa", "22", 1, DefaultConfig.zero⟩
      [.err (some "Process exited with status 1"), .err none] [] true
      (by decide) rfl (by decide)
    exact ⟨run, h1, by rw [h4 (by decide)]; decide⟩
  · obtain ⟨run, h1, _, h3, _⟩ := execute_pending_error ⟨"root", 22⟩
      (fun _ _ _ => ⟨[.err (some "first"), .err (some "second"), .done true], none⟩)
      "web1" "" "id_rsa" "uptime" 1 2
      ⟨"root", "web1", "id_rsa", "22", 1, DefaultConfig.zero⟩
      [.err (some "first"), .err (some "second")] [] true
      (by decide) rfl (by decide)
    exact ⟨run, h1, by rw [h3 "second" (by decide)]; decide⟩

/-- C6, as stated, fails: a worker whose connection is refused does write a line to
standard error, the banner of line 54. -/
theorem execute_refused_banner :
    ∃ run, execute ⟨"root", 22⟩ refusing "10.0.0.1" "" "id_rsa" "uptime" 1 2 = some run ∧
      reports run.effects = ["[10.0.0.1] error: dial tcp: connection refused"] ∧
      stderrWrites run.effects = ["# execute on 10.0.0.1\n"] ∧
      stderrWrites run.effects ≠ [] := by
  decide

/-- C6, amended. For every target address `addr` and every error `e` returned by
`Stream` (session establishment or command submission), the worker sends exactly one
report, `"[" ++ addr ++ "] error: " ++ e`, writes nothing to standard output, writes to
standard error the banner `"# execute on " ++ addr` alone, receives no value from the
provider's channels (the loop is not entered), and returns, with `wg.Done()` called
once, last. -/
theorem execute_submit_error (g : Globals) (Stream : Provider)
    (addr gwAddr key cmd : String) (timeout streamTimeout : Int) (cfg : MakeConfig)
    (evs : List StreamEvent) (e : String)
    (hcfg : sshConfig g addr gwAddr key timeout = some cfg)
    (hS : Stream cfg cmd streamTimeout = ⟨evs, some e⟩) :
    ∃ run, execute g Stream addr gwAddr key cmd timeout streamTimeout = some run ∧
      reports run.effects = ["[" ++ addr ++ "] error: " ++ e] ∧
      stdoutWrites run.effects = [] ∧
      stderrWrites run.effects = ["# execute on " ++ addr ++ "\n"] ∧
      run.consumed = 0 ∧
      run.returned = true ∧
      wgDones run.effects = 1 ∧
      run.effects.getLast? = some .wgDone := by
  refine ⟨⟨[.stderr ("# execute on " ++ addr ++ "\n"),
    .send ("[" ++ addr ++ "] error: " ++ e), .wgDone], 0, true⟩, ?_, ?_⟩
  · simp [execute, hcfg, hS]
  · simp [reports, stdoutWrites, stderrWrites, wgDones]

/-- C6, amended, at a refused connection whose channels would have delivered values. -/
theorem execute_submit_error_witness :
    ∃ run, execute ⟨"root", 22⟩
        (fun _ _ _ => ⟨[.stdout "never read", .done true], some "ssh: handshake failed"⟩)
        "10.0.0.1:2222" "" "id_rsa" "uptime" 1 2 = some run ∧
      reports run.effects = ["[10.0.0.1:2222] error: ssh: handshake failed"] ∧
      stdoutWrites run.effects = [] ∧
      run.consumed = 0 := by
  obtain ⟨run, h1, h2, h3, _, h5, _⟩ := execute_submit_error ⟨"root", 22⟩
    (fun _ _ _ => ⟨[.stdout "never read", .done true], some "ssh: handshake failed"⟩)
    "10.0.0.1:2222" "" "id_rsa" "uptime" 1 2
    ⟨"root", "10.0.0.1", "id_rsa", "2222", 1, DefaultConfig.zero⟩
    [.stdout "never read", .done true] "ssh: handshake failed" (by decide) rfl
  exact ⟨run, h1, by rw [h2]; decide, h3, h5⟩

/-! ## The drain goroutine (C2) -/

/-- C2, as stated, fails: the report the drain goroutine handles goes to standard
output, and standard error is left as it was. -/
theorem drain_prints_to_stdout :
    ∃ w1,
      run Config.refused [.main, .main, .worker 0, .worker 0] (World.init ["10.0.0.1"])
        = some w1 ∧
      w1.drain = .received "[10.0.0.1] error: dial tcp: connection refused" ∧
      ∃ w2, run Config.refused [.drain, .drain] w1 = some w2 ∧
      w2.stderr = w1.stderr ∧
      w2.stderr = ["# execute on 10.0.0.1\n"] ∧
      w2.stdout ≠ w1.stdout ∧
      w2.stdout = ["[10.0.0.1] error: dial tcp: connection refused\n"] := by
  decide

/-- C2, amended. For every report the drain goroutine has received, in a process
that has not exited: the goroutine's next step (line 209) sets `errored` to 1 and
changes nothing else, so nothing is written yet; from any later state in which it
stands before line 210, its next step writes the report, with a newline, to standard
output, changes nothing else, and brings it back to its `select`; no worker can
complete a send in between.  Taken one after the other the two steps leave `errored`
at 1, the report appended to standard output and standard error unchanged. -/
theorem drain_report (cfg : Config) (w : World) (err : String)
    (hexit : w.exit = none) (hd : w.drain = .received err) :
    step cfg .drain w = some { w with drain := .printing err, errored := 1 } ∧
    (∀ v : World, v.exit = none → v.drain = .printing err →
      step cfg .drain v =
        some { v with drain := .select, stdout := v.stdout ++ [err ++ "\n"] }) ∧
    (∀ (v v2 : World) (i : Nat),
      (v.drain = .received err ∨ v.drain = .printing err) →
      step cfg (.worker i) v = some v2 → v2.drain = v.drain ∧ v2.sent = v.sent ∧
        v2.errored = v.errored) ∧
    ∃ w1 w2, step cfg .drain w = some w1 ∧
      w1.errored = 1 ∧ w1.stdout = w.stdout ∧ w1.stderr = w.stderr ∧
      w1.drain = .printing err ∧
      step cfg .drain w1 = some w2 ∧
      run cfg [.drain, .drain] w = some w2 ∧
      w2.errored = 1 ∧
      w2.stdout = w.stdout ++ [err ++ "\n"] ∧
      w2.stderr = w.stderr ∧
      w2.drain = .select ∧
      w2.sent = w.sent ∧ w2.exit = none := by
  have h1 : step cfg .drain w = some { w with drain := .printing err, errored := 1 } := by
    simp [step, stepDrain, hexit, hd]
  have h2 : ∀ v : World, v.exit = none → v.drain = .printing err →
      step cfg .drain v =
        some { v with drain := .select, stdout := v.stdout ++ [err ++ "\n"] } := by
    intro v hv hp
    simp [step, stepDrain, hv, hp]
  have h3 := h2 { w with drain := .printing err, errored := 1 } hexit rfl
  refine ⟨h1, h2, ?_, _, _, h1, rfl, rfl, rfl, rfl, h3, ?_, rfl, rfl, rfl,
    rfl, rfl, hexit⟩
  · intro v v2 i hv hs
    unfold step at hs
    split at hs
    · cases hs
    · have hs : stepWorker i v = some v2 := hs
      unfold stepWorker at hs
      split at hs
      · cases hs
      · cases hs
      · rename_i eff rest _
        cases eff with
        | stdout text => cases hs; exact ⟨rfl, rfl, rfl⟩
        | stderr text => cases hs; exact ⟨rfl, rfl, rfl⟩
        | send report =>
          simp only at hs
          split at hs
          · rename_i hsel
            rcases hv with hv | hv <;> simp [hv] at hsel
          · cases hs
        | wgDone =>
          simp only at hs
          split at hs
          · cases hs
          · cases hs; exact ⟨rfl, rfl, rfl⟩
  · simp [run, h1, h3]

/-- C2, amended, at the state a run reaches when the worker of a refused connection
has sent its report. -/
theorem drain_report_witness :
    run Config.refused [.main, .main, .worker 0, .worker 0] (World.init ["10.0.0.1"]) =
      some { World.init [] with
        main := .wait, workers := [[.wgDone]], wg := 1,
        drain := .received "[10.0.0.1] error: dial tcp: connection refused",
        stderr := ["# execute on 10.0.0.1\n"],
        sent := ["[10.0.0.1] error: dial tcp: connection refused"] } ∧
    ∃ w1 w2,
      step Config.refused .drain
        { World.init [] with
          main := .wait, workers := [[.wgDone]], wg := 1,
          drain := .received "[10.0.0.1] error: dial tcp: connection refused",
          stderr := ["# execute on 10.0.0.1\n"],
          sent := ["[10.0.0.1] error: dial tcp: connection refused"] } = some w1 ∧
      w1.errored = 1 ∧ w1.stdout = [] ∧
      step Config.refused .drain w1 = some w2 ∧
      w2.errored = 1 ∧
      w2.stdout = ["[10.0.0.1] error: dial tcp: connection refused\n"] ∧
      w2.stderr = ["# execute on 10.0.0.1\n"] := by
  refine ⟨by decide, ?_⟩
  obtain ⟨_, _, _, w1, w2, h1, h2, h3, _, _, h6, _, h8, h9, h10, _⟩ :=
    drain_report Config.refused
      { World.init [] with
        main := .wait, workers := [[.wgDone]], wg := 1,
        drain := .received "[10.0.0.1] error: dial tcp: connection refused",
        stderr := ["# execute on 10.0.0.1\n"],
        sent := ["[10.0.0.1] error: dial tcp: connection refused"] }
      "[10.0.0.1] error: dial tcp: connection refused" rfl rfl
  exact ⟨w1, w2, h1, h2, h3, h6, h8, by rw [h9]; decide, h10⟩

/-! ## The exit status (C1, C9) -/

theorem wgDones_cons (e : Effect) (l : List Effect) :
    wgDones (e :: l) = (if e = .wgDone then 1 else 0) + wgDones l := by
  by_cases h : e = .wgDone
  · subst h
    simp [wgDones]
    omega
  · have h2 : ¬ (Effect.wgDone = e) := fun h3 => h h3.symm
    simp [wgDones, h, List.count_cons, h2]

theorem wgDones_append (a b : List Effect) : wgDones (a ++ b) = wgDones a + wgDones b := by
  simp [wgDones]

/-- Taking the first effect off the `i`-th worker takes it off the count of the
`wg.Done()` calls still to come. -/
theorem sum_wgDones_set (ws : List (List Effect)) (i : Nat) (e : Effect)
    (rest : List Effect) (h : ws[i]? = some (e :: rest)) :
    ((ws.set i rest).map wgDones).sum + (if e = .wgDone then 1 else 0) =
      (ws.map wgDones).sum := by
  induction ws generalizing i with
  | nil => simp at h
  | cons l ls ih =>
    cases i with
    | zero =>
      simp only [List.getElem?_cons_zero, Option.some.injEq] at h
      subst h
      simp only [List.set_cons_zero, List.map_cons, List.sum_cons, wgDones_cons]
      omega
    | succ k =>
      simp only [List.getElem?_cons_succ] at h
      have := ih k h
      simp only [List.set_cons_succ, List.map_cons, List.sum_cons]
      omega

/-- The loop sends no report and does not call `wg.Done()`. -/
theorem loop_only_writes (addr : String) (evs : List StreamEvent) :
    reports (loop addr evs LoopState.start).effects = [] ∧
    wgDones (loop addr evs LoopState.start).effects = 0 := by
  have hn := beforeDone_noDone evs
  rcases beforeDone_cases evs with h | ⟨v, post, h⟩
  · rw [← h] at hn
    obtain ⟨_, _, _, _, _, _, h7, h8⟩ := loop_noDone addr evs hn LoopState.start
    exact ⟨by simpa [LoopState.start, reports] using h7,
      by simpa [LoopState.start, wgDones] using h8⟩
  · generalize beforeDone evs = pre at h hn
    subst h
    obtain ⟨_, _, _, _, _, _, h7, h8⟩ := loop_noDone addr pre hn LoopState.start
    rw [loop_done addr pre post v hn]
    exact ⟨by simpa [LoopState.start, reports] using h7,
      by simpa [LoopState.start, wgDones] using h8⟩

/-- The effects of a worker: a worker that sends a report ends with `wg.Done()`, and
no worker calls `wg.Done()` more than once. -/
theorem execute_effects (g : Globals) (Stream : Provider) (addr gwAddr key cmd : String)
    (timeout streamTimeout : Int) (r : Run)
    (h : execute g Stream addr gwAddr key cmd timeout streamTimeout = some r) :
    (reports r.effects = [] ∨ r.effects.getLast? = some .wgDone) ∧
      wgDones r.effects ≤ 1 := by
  have hcfg : ∃ cfg, sshConfig g addr gwAddr key timeout = some cfg := by
    obtain ⟨p, _, hc⟩ := sshConfig_eq g addr gwAddr key timeout
    exact ⟨_, hc⟩
  obtain ⟨cfg, hc⟩ := hcfg
  obtain ⟨hl1, hl2⟩ := loop_only_writes addr (Stream cfg cmd streamTimeout).events
  have ht : wgDones (terminalReports addr
      (loop addr (Stream cfg cmd streamTimeout).events LoopState.start).err
      (loop addr (Stream cfg cmd streamTimeout).events LoopState.start).isTimeout) = 0 := by
    cases (loop addr (Stream cfg cmd streamTimeout).events LoopState.start).err <;>
      cases (loop addr (Stream cfg cmd streamTimeout).events LoopState.start).isTimeout <;>
      simp [terminalReports, wgDones]
  cases he : (Stream cfg cmd streamTimeout).err with
  | some e =>
    simp [execute, hc, he] at h
    subst h
    simp [wgDones]
  | none =>
    by_cases hx : (loop addr (Stream cfg cmd streamTimeout).events LoopState.start).exited
    · simp only [LoopState.start] at hx hl1 hl2 ht
      simp [execute, hc, he, hx] at h
      subst h
      refine ⟨Or.inr ?_, ?_⟩
      · rw [← List.cons_append, ← List.append_assoc, List.getLast?_append]
        rfl
      · simp only [wgDones_cons, wgDones_append, hl2, ht]
        simp [wgDones]
    · simp only [LoopState.start] at hx hl1 hl2 ht
      simp [execute, hc, he, hx] at h
      subst h
      refine ⟨Or.inl ?_, ?_⟩
      · simpa [reports] using hl1
      · simp only [wgDones_cons, hl2]
        simp

theorem wgDones_le_sum (ws : List (List Effect)) (l : List Effect) (h : l ∈ ws) :
    wgDones l ≤ (ws.map wgDones).sum := by
  induction ws with
  | nil => simp at h
  | cons x xs ih =>
    simp only [List.map_cons, List.sum_cons]
    rcases List.mem_cons.1 h with h | h
    · subst h
      omega
    · have := ih h
      omega

theorem wgDones_pos_of_getLast (l : List Effect) (h : l.getLast? = some .wgDone) :
    0 < wgDones l := by
  have hm : Effect.wgDone ∈ l := List.mem_of_getLast?_eq_some h
  exact List.count_pos_iff.2 hm

theorem good_tail (e : Effect) (rest : List Effect)
    (h : reports (e :: rest) = [] ∨ (e :: rest).getLast? = some .wgDone) :
    reports rest = [] ∨ rest.getLast? = some .wgDone := by
  rcases h with h | h
  · left
    cases e <;> simp_all [reports]
  · cases rest with
    | nil => left; rfl
    | cons a as =>
      right
      rw [List.getLast?_cons_cons] at h
      exact h

/-- Once `main` is past `wg.Wait()` no worker has a report left to send. -/
theorem no_send_past_wait (w : World) (hi : w.Inv) (h1 : w.main ≠ .spawn)
    (h2 : w.main ≠ .wait) (i : Nat) (r : String) (rest : List Effect)
    (h : w.workers[i]? = some (.send r :: rest)) : False := by
  have hwg := hi.past_wait h1 h2
  have hmem : (Effect.send r :: rest) ∈ w.workers := List.getElem?_mem h
  have hle := wgDones_le_sum w.workers _ hmem
  have hge := hi.wg_ge
  rcases hi.good _ hmem with hg | hg
  · simp [reports] at hg
  · have := wgDones_pos_of_getLast _ hg
    omega

theorem World.Inv_init (addrs : List String) : (World.init addrs).Inv := by
  constructor <;> simp [World.init]

theorem stepMain_inv (cfg : Config) (w w2 : World) (hexit : w.exit = none)
    (h : stepMain cfg w = some w2) (hi : w.Inv) : w2.Inv := by
  unfold stepMain at h
  split at h
  · rename_i hm
    split at h
    · simp only [Option.map_eq_some'] at h
      obtain ⟨r, hr, rfl⟩ := h
      obtain ⟨hg, hle⟩ := execute_effects _ _ _ _ _ _ _ _ r hr
      exact { hi with
        wg_ge := by
          have := hi.wg_ge
          simp only [List.map_append, List.sum_append, List.map_cons, List.map_nil,
            List.sum_cons, List.sum_nil]
          omega
        good := by
          intro l hl
          rcases List.mem_append.1 hl with hl | hl
          · exact hi.good l hl
          · simp only [List.mem_singleton] at hl
            subst hl
            exact hg
        past_wait := fun h1 _ => absurd hm h1 }
    · cases h
      obtain ⟨hs, _⟩ := hi.spawn hm
      exact {
        errored_le := Or.inl rfl
        sent_of_errored := by simp
        spawn := by simp
        sent_of_received := by simp
        errored_of_sent := by simp [hs]
        errored_of_two := by simp [hs]
        last_of_received := by simp
        status_ok := by simp [hexit]
        wg_ge := hi.wg_ge
        good := hi.good
        past_wait := by simp }
  · split at h
    · rename_i hwg
      cases h
      exact { hi with
        spawn := by simp
        status_ok := fun c hc => hi.status_ok c (by
          rcases hc with hc | hc
          · simp at hc
          · exact Or.inr hc)
        past_wait := fun _ _ => hwg }
    · cases h
  · rename_i hm
    cases h
    exact { hi with
      spawn := by simp
      status_ok := fun c hc => hi.status_ok c (by
        rcases hc with hc | hc
        · simp at hc
        · exact Or.inr hc)
      past_wait := fun _ _ => hi.past_wait (by simp [hm]) (by simp [hm]) }
  · rename_i hm
    cases h
    exact { hi with
      spawn := by simp
      status_ok := by
        intro c hc
        rcases hc with hc | hc
        · simp only [MainPc.exiting.injEq] at hc
          subst hc
          exact ⟨hi.errored_le, hi.sent_of_errored, hi.errored_of_two⟩
        · simp [hexit] at hc
      past_wait := fun _ _ => hi.past_wait (by simp [hm]) (by simp [hm]) }
  · rename_i st hm
    cases h
    exact { hi with
      spawn := by simp
      status_ok := by
        intro c hc
        rcases hc with hc | hc
        · simp at hc
        · simp only [Option.some.injEq] at hc
          subst hc
          exact hi.status_ok st (Or.inl hm)
      past_wait := fun _ _ => hi.past_wait (by simp [hm]) (by simp [hm]) }
  · cases h

theorem stepDrain_inv (w w2 : World)
    (h : stepDrain w = some w2) (hi : w.Inv) : w2.Inv := by
  unfold stepDrain at h
  split at h
  · cases h
  · rename_i hd
    split at h
    · cases h
      exact { hi with
        spawn := by
          intro hm
          have := (hi.spawn hm).2
          simp [hd] at this
        sent_of_received := by simp
        errored_of_sent := by
          intro hs
          rcases hi.errored_of_sent hs with h1 | ⟨r, h1⟩
          · exact Or.inl h1
          · simp [hd] at h1
        last_of_received := by simp }
    · cases h
  · rename_i err hd
    cases h
    exact { hi with
      errored_le := Or.inr rfl
      sent_of_errored := fun _ => hi.sent_of_received err hd
      spawn := by
        intro hm
        have := (hi.spawn hm).2
        simp [hd] at this
      sent_of_received := by simp
      errored_of_sent := fun _ => Or.inl rfl
      errored_of_two := fun _ => rfl
      last_of_received := by simp }
  · rename_i err hd
    cases h
    exact { hi with
      spawn := by
        intro hm
        have := (hi.spawn hm).2
        simp [hd] at this
      sent_of_received := by simp
      errored_of_sent := by
        intro hs
        rcases hi.errored_of_sent hs with h1 | ⟨r, h1⟩
        · exact Or.inl h1
        · simp [hd] at h1
      last_of_received := by simp }
  · cases h

theorem stepWorker_inv (i : Nat) (w w2 : World) (hexit : w.exit = none)
    (h : stepWorker i w = some w2) (hi : w.Inv) : w2.Inv := by
  unfold stepWorker at h
  split at h
  · cases h
  · cases h
  · rename_i eff rest hget
    have hsum := sum_wgDones_set w.workers i eff rest hget
    have hgood : ∀ l ∈ w.workers.set i rest,
        reports l = [] ∨ l.getLast? = some .wgDone := by
      intro l hl
      rcases List.mem_or_eq_of_mem_set hl with hl | hl
      · exact hi.good l hl
      · subst hl
        exact good_tail eff l (hi.good _ (List.getElem?_mem hget))
    have hge := hi.wg_ge
    cases eff with
    | stdout text =>
      cases h
      simp only [reduceCtorEq, if_false, Nat.add_zero] at hsum
      exact { hi with wg_ge := by rw [hsum]; exact hge, good := hgood }
    | stderr text =>
      cases h
      simp only [reduceCtorEq, if_false, Nat.add_zero] at hsum
      exact { hi with wg_ge := by rw [hsum]; exact hge, good := hgood }
    | send report =>
      simp only at h
      split at h
      · rename_i hd
        cases h
        simp only [reduceCtorEq, if_false, Nat.add_zero] at hsum
        have hmain : w.main = .spawn ∨ w.main = .wait := by
          by_contra hcon
          simp only [not_or] at hcon
          exact no_send_past_wait w hi hcon.1 hcon.2 i report rest hget
        exact { hi with
          sent_of_errored := by simp
          spawn := by
            intro hm
            have := (hi.spawn hm).2
            simp [hd] at this
          sent_of_received := by simp
          errored_of_sent := fun _ => Or.inr ⟨report, rfl⟩
          errored_of_two := by
            intro hl
            have hs : w.sent ≠ [] := by
              intro hnil
              simp [hnil] at hl
            rcases hi.errored_of_sent hs with h1 | ⟨r, h1⟩
            · exact h1
            · simp [hd] at h1
          last_of_received := by simp
          status_ok := by
            intro c hc
            rcases hc with hc | hc
            · rcases hmain with hm | hm <;> simp [hm] at hc
            · simp [hexit] at hc
          wg_ge := by rw [hsum]; exact hge
          good := hgood }
      · cases h
    | wgDone =>
      simp only at h
      split at h
      · cases h
      · cases h
        simp only [if_true] at hsum
        exact { hi with
          wg_ge := by
            show ((w.workers.set i rest).map wgDones).sum ≤ w.wg - 1
            omega
          good := hgood
          past_wait := by
            intro h1 h2
            have := hi.past_wait h1 h2
            show w.wg - 1 = 0
            omega }

theorem step_inv (cfg : Config) (t : Tid) (w w2 : World)
    (h : step cfg t w = some w2) (hi : w.Inv) : w2.Inv := by
  unfold step at h
  split at h
  · cases h
  · rename_i hexit
    have hexit : w.exit = none := by
      cases he : w.exit with
      | none => rfl
      | some c => simp [he] at hexit
    cases t with
    | main => exact stepMain_inv cfg w w2 hexit h hi
    | drain => exact stepDrain_inv w w2 h hi
    | worker i => exact stepWorker_inv i w w2 hexit h hi

/-- Every state the process reaches satisfies the invariant. -/
theorem run_inv (cfg : Config) (sched : List Tid) (w w2 : World)
    (h : run cfg sched w = some w2) (hi : w.Inv) : w2.Inv := by
  induction sched generalizing w with
  | nil =>
    simp only [run, Option.some.injEq] at h
    exact h ▸ hi
  | cons t ts ih =>
    simp only [run] at h
    cases hs : step cfg t w with
    | none => simp [hs] at h
    | some w1 =>
      rw [hs] at h
      exact ih w1 h (step_inv cfg t w w1 hs hi)

/-- In every state the process reaches: the exit status, once set, is 0 or 1; it is 1
only if a report was sent; it is 0 if none was sent; it is 1 if two or more were
sent; so it is 0 after a report only when that report is the single one sent. -/
theorem exit_status_sound (cfg : Config) (addrs : List String) (sched : List Tid)
    (w : World) (c : Nat)
    (h : run cfg sched (World.init addrs) = some w) (hc : w.exit = some c) :
    (c = 0 ∨ c = 1) ∧ (c = 1 → w.sent ≠ []) ∧ (w.sent = [] → c = 0) ∧
      (2 ≤ w.sent.length → c = 1) ∧
      (c = 0 → w.sent ≠ [] → ∃ r, w.sent = [r]) := by
  have hi := run_inv cfg sched _ w h (World.Inv_init addrs)
  obtain ⟨h1, h2, h3⟩ := hi.status_ok c (Or.inr hc)
  refine ⟨h1, h2, ?_, h3, ?_⟩
  · intro hs
    rcases h1 with h0 | h1
    · exact h0
    · exact absurd hs (h2 h1)
  · intro h0 hs
    have hlen : w.sent.length < 2 := by
      by_contra hcon
      have := h3 (by omega)
      omega
    cases hw : w.sent with
    | nil => exact absurd hw hs
    | cons a rest =>
      cases rest with
      | nil => exact ⟨a, rfl⟩
      | cons b rest2 =>
        rw [hw] at hlen
        simp only [List.length_cons] at hlen
        omega

/-- In every state the process reaches in which `main` stands at `os.Exit(errored)`
with `errored` still 0 although a report was sent: that report is the single one
sent, and the drain goroutine, having received it, has not reached `errored = 1`. -/
theorem read_zero_after_report (cfg : Config) (addrs : List String) (sched : List Tid)
    (w : World)
    (h : run cfg sched (World.init addrs) = some w) (hm : w.main = .exit)
    (h0 : w.errored = 0) (hs : w.sent ≠ []) :
    ∃ r, w.sent = [r] ∧ w.drain = .received r ∧
      step cfg .main w = some { w with main := .exiting 0 } := by
  have hi := run_inv cfg sched _ w h (World.Inv_init addrs)
  have hexit : w.exit = none := by
    cases he : w.exit with
    | none => rfl
    | some c =>
      -- after `os.Exit` the program counter of `main` is `exited`
      exfalso
      have key : ∀ (sched : List Tid) (w1 w2 : World), run cfg sched w1 = some w2 →
          (w1.exit.isSome = true → w1.main = .exited) →
          (w2.exit.isSome = true → w2.main = .exited) := by
        intro sched
        induction sched with
        | nil =>
          intro w1 w2 h hw
          simp only [run, Option.some.injEq] at h
          exact h ▸ hw
        | cons t ts ih =>
          intro w1 w2 h hw
          simp only [run] at h
          cases hst : step cfg t w1 with
          | none => simp [hst] at h
          | some w3 =>
            rw [hst] at h
            refine ih w3 w2 h ?_
            unfold step at hst
            split at hst
            · cases hst
            · rename_i hne
              cases t with
              | main =>
                have hst : stepMain cfg w1 = some w3 := hst
                unfold stepMain at hst
                split at hst
                · split at hst
                  · simp only [Option.map_eq_some'] at hst
                    obtain ⟨r, _, rfl⟩ := hst
                    exact fun h => absurd h hne
                  · cases hst; exact fun h => absurd h hne
                · split at hst
                  · cases hst; exact fun h => absurd h hne
                  · cases hst
                · cases hst; exact fun h => absurd h hne
                · cases hst; exact fun h => absurd h hne
                · cases hst; exact fun _ => rfl
                · cases hst
              | drain =>
                have hst : stepDrain w1 = some w3 := hst
                unfold stepDrain at hst
                split at hst
                · cases hst
                · split at hst
                  · cases hst; exact fun h => absurd h hne
                  · cases hst
                · cases hst; exact fun h => absurd h hne
                · cases hst; exact fun h => absurd h hne
                · cases hst
              | worker i =>
                have hst : stepWorker i w1 = some w3 := hst
                unfold stepWorker at hst
                split at hst
                · cases hst
                · cases hst
                · rename_i eff rest _
                  cases eff with
                  | stdout text => cases hst; exact fun h => absurd h hne
                  | stderr text => cases hst; exact fun h => absurd h hne
                  | send report =>
                    simp only at hst
                    split at hst
                    · cases hst; exact fun h => absurd h hne
                    · cases hst
                  | wgDone =>
                    simp only at hst
                    split at hst
                    · cases hst
                    · cases hst; exact fun h => absurd h hne
      have := key sched _ w h (by simp [World.init]) (by simp [he])
      rw [hm] at this
      cases this
  rcases hi.errored_of_sent hs with h1 | ⟨r, hr⟩
  · omega
  · refine ⟨r, ?_, hr, ?_⟩
    · have hlast := hi.last_of_received r hr
      have hlen : w.sent.length < 2 := by
        by_contra hcon
        have := hi.errored_of_two (by omega)
        omega
      cases hw : w.sent with
      | nil => exact absurd hw hs
      | cons a rest =>
        cases rest with
        | nil =>
          rw [hw] at hlast
          simp at hlast
          rw [hlast]
        | cons b rest2 =>
          rw [hw] at hlen
          simp only [List.length_cons] at hlen
          omega
    · simp [step, stepMain, hexit, hm, h0]

theorem step_no_targets (cfg : Config) (t : Tid) (w w2 : World)
    (h : step cfg t w = some w2)
    (hw : w.addrs = [] ∧ w.workers = [] ∧ w.sent = []) :
    w2.addrs = [] ∧ w2.workers = [] ∧ w2.sent = [] := by
  obtain ⟨ha, hws, hs⟩ := hw
  unfold step at h
  split at h
  · cases h
  · cases t with
    | main =>
      have h : stepMain cfg w = some w2 := h
      unfold stepMain at h
      split at h
      · split at h
        · rename_i heq
          rw [heq] at ha
          cases ha
        · cases h; exact ⟨ha, hws, hs⟩
      · split at h
        · cases h; exact ⟨ha, hws, hs⟩
        · cases h
      · cases h; exact ⟨ha, hws, hs⟩
      · cases h; exact ⟨ha, hws, hs⟩
      · cases h; exact ⟨ha, hws, hs⟩
      · cases h
    | drain =>
      have h : stepDrain w = some w2 := h
      unfold stepDrain at h
      split at h
      · cases h
      · split at h
        · cases h; exact ⟨ha, hws, hs⟩
        · cases h
      · cases h; exact ⟨ha, hws, hs⟩
      · cases h; exact ⟨ha, hws, hs⟩
      · cases h
    | worker i =>
      have h : stepWorker i w = some w2 := h
      simp [stepWorker, hws] at h

/-- With an empty target list no report is ever sent and the exit status, once set,
is 0. -/
theorem exit_zero_of_no_targets (cfg : Config) (sched : List Tid) (w : World) (c : Nat)
    (h : run cfg sched (World.init []) = some w) (hc : w.exit = some c) :
    w.sent = [] ∧ c = 0 := by
  have key : ∀ (sched : List Tid) (w1 w2 : World), run cfg sched w1 = some w2 →
      (w1.addrs = [] ∧ w1.workers = [] ∧ w1.sent = []) →
      (w2.addrs = [] ∧ w2.workers = [] ∧ w2.sent = []) := by
    intro sched
    induction sched with
    | nil =>
      intro w1 w2 h hw
      simp only [run, Option.some.injEq] at h
      exact h ▸ hw
    | cons t ts ih =>
      intro w1 w2 h hw
      simp only [run] at h
      cases hs : step cfg t w1 with
      | none => simp [hs] at h
      | some w3 =>
        rw [hs] at h
        exact ih w3 w2 h (step_no_targets cfg t w1 w3 hs hw)
  have hs := (key sched _ w h ⟨rfl, rfl, rfl⟩).2.2
  exact ⟨hs, (exit_status_sound cfg [] sched w c h hc).2.2.1 hs⟩

/-- With an empty target list `main` runs through and exits with status 0. -/
theorem exit_no_targets (cfg : Config) :
    (run cfg [.main, .main, .main, .main, .main] (World.init [])).bind (·.exit) = some 0 := by
  rfl

/-- A schedule in which the drain goroutine handles the report before `main` reads
`errored`: the exit status is 1. -/
theorem exit_one_refused :
    ∃ w, run Config.refused
        [.main, .main, .worker 0, .worker 0, .drain, .drain, .worker 0, .main, .main, .main,
          .main]
        (World.init ["10.0.0.1"]) = some w ∧
      w.sent = ["[10.0.0.1] error: dial tcp: connection refused"] ∧
      w.stdout = ["[10.0.0.1] error: dial tcp: connection refused\n"] ∧
      w.exit = some 1 := by
  decide

/-- Two targets, the first refusing the connection, the second writing two lines, on a
schedule in which the drain goroutine handles the report at once: both lines and
the report are printed and the exit status is 1. -/
theorem exit_one_mixed :
    ∃ w, run Config.mixed
        [.main, .main, .main, .worker 1, .worker 0, .worker 1, .worker 0, .drain, .drain,
          .worker 1, .worker 0, .worker 1, .main, .main, .main, .main]
        (World.init ["10.0.0.1", "10.0.0.2:2222"]) = some w ∧
      w.stdout = ["[10.0.0.2:2222] one\n",
        "[10.0.0.1] error: dial tcp: connection refused\n", "[10.0.0.2:2222] two\n"] ∧
      w.stderr = ["# execute on 10.0.0.2:2222\n", "# execute on 10.0.0.1\n"] ∧
      w.sent = ["[10.0.0.1] error: dial tcp: connection refused"] ∧
      w.exit = some 1 := by
  decide

/-- The `--port` flag is not read: with `-P 2200` and the address `10.0.0.1` the
descriptor has port `"22"`. -/
theorem sshConfig_port_flag_unread :
    ∃ c, sshConfig ⟨"root", 2200⟩ "10.0.0.1" "" "id_rsa" 1000000000 = some c ∧
      c.Server = "10.0.0.1" ∧ c.Port = "22" := by
  decide

/-- C1 fails on a schedule of the code: one target, whose connection is refused.  The
worker sends its report and returns; `main` passes `wg.Wait()`, cancels and runs
`os.Exit(errored)` before the drain goroutine has run `errored = 1` for the report it
received.  A failure report was emitted, and the exit status is 0.  The same holds
when the drain goroutine runs lines 209 and 210 after `main` has read `errored` and
before the process ends: the report is then printed, and the exit status is still
0. -/
theorem exit_zero_despite_report :
    (∃ w, run Config.refused
        [.main, .main, .worker 0, .worker 0, .worker 0, .main, .main, .main, .main]
        (World.init ["10.0.0.1"]) = some w ∧
      w.sent = ["[10.0.0.1] error: dial tcp: connection refused"] ∧
      w.exit = some 0 ∧
      w.stdout = []) ∧
    (∃ w, run Config.refused
        [.main, .main, .worker 0, .worker 0, .worker 0, .main, .main, .main, .drain,
          .drain, .main]
        (World.init ["10.0.0.1"]) = some w ∧
      w.sent = ["[10.0.0.1] error: dial tcp: connection refused"] ∧
      w.exit = some 0 ∧
      w.errored = 1 ∧
      w.stdout = ["[10.0.0.1] error: dial tcp: connection refused\n"]) := by
  decide

/-- C9 fails on a schedule of the code: one target, whose command times out.  The
report the worker sends is received by the drain goroutine, but `main` reads
`errored` for `os.Exit` while that goroutine still stands before `errored = 1`: the
read precedes the write, and the exit status is 0, whether the process ends before
the write or the write still happens before the process ends. -/
theorem errored_read_before_write :
    ∃ w1, run Config.timedOut
        [.main, .main, .worker 0, .worker 0, .worker 0, .worker 0, .worker 0, .main, .main]
        (World.init ["db1:22"]) = some w1 ∧
      w1.main = .exit ∧
      w1.sent = ["[db1:22] timeout while read from stream"] ∧
      w1.drain = .received "[db1:22] timeout while read from stream" ∧
      w1.errored = 0 ∧
      (∃ wr, run Config.timedOut [.main] w1 = some wr ∧
        wr.main = .exiting 0 ∧
        wr.drain = .received "[db1:22] timeout while read from stream" ∧
        wr.errored = 0) ∧
      (∃ w2, run Config.timedOut [.main, .main] w1 = some w2 ∧
        w2.exit = some 0 ∧
        w2.drain = .received "[db1:22] timeout while read from stream" ∧
        run Config.timedOut [.drain] w2 = none) ∧
      (∃ w3, run Config.timedOut [.main, .drain, .main] w1 = some w3 ∧
        w3.errored = 1 ∧
        w3.exit = some 0) := by
  decide

end Psshexec
